import Mathlib

/-!
Verification development for the light-transport core of the `rt-weekends`
ray tracer (files `src/vecmath.rs`, `src/shapes.rs`, `src/textures.rs`,
`src/materials.rs`, `src/scene.rs`).

The embedding is a shallow one over exact rational arithmetic: the Rust
scalar type `Fp` (an IEEE float) is modelled by `ℚ`.  `Fp::sqrt` is modelled
by `ratSqrt`, which returns the exact square root whenever the argument is
the square of a rational (all concrete inputs used in witnesses are chosen
in this fragment) and `0` otherwise.  Transcendental functions (`cos`,
`sin`, `atan2`, `acos`) only feed the texture coordinates `u`/`v` and the
cosine-hemisphere sample direction, which no claim inspects numerically;
they are modelled by fixed total functions.  Division by zero follows
Lean's `ℚ` convention (`x / 0 = 0`) except in the AABB slab test, where the
IEEE infinity/NaN behaviour is semantically essential and is modelled
faithfully by the extended type `EFp`.
-/

namespace RTW

/-- Model of the scalar type `Fp` (`f32` in the default build). -/
abbrev Fp := ℚ

/-- Model of `Fp::MAX` (the exact value of `f32::MAX`). -/
def fpMax : Fp := (2 ^ 24 - 1) * 2 ^ 104

/-- Model of the float constant `PI` (the exact value of `f32`'s
`consts::PI`). -/
def piQ : Fp := 13176795 / 4194304

/-- Model of `Fp::sqrt`: `Rat.sqrt`, which is the exact square root
whenever the argument is the square of a rational (witness inputs are
chosen so that every square root taken is exact) and a nonnegative
approximation otherwise.  The source never takes the square root of a
negative number on the paths the claims quantify over. -/
def ratSqrt (q : ℚ) : ℚ := Rat.sqrt q

theorem ratSqrt_nonneg (q : ℚ) : 0 ≤ ratSqrt q := Rat.sqrt_nonneg q

theorem ratSqrt_mul_self (r : ℚ) (h : 0 ≤ r) : ratSqrt (r * r) = r := by
  rw [ratSqrt, Rat.sqrt_eq, abs_of_nonneg h]

theorem ratSqrt_one : ratSqrt 1 = 1 := by
  have h := ratSqrt_mul_self 1 (by norm_num)
  simpa using h

theorem ratSqrt_zero : ratSqrt 0 = 0 := by
  have h := ratSqrt_mul_self 0 (by norm_num)
  simpa using h

theorem ratSqrt_quarter : ratSqrt (1 / 4 : ℚ) = 1 / 2 := by
  have h := ratSqrt_mul_self (1 / 2) (by norm_num)
  rw [show ((1 : ℚ) / 2) * (1 / 2) = 1 / 4 by norm_num] at h
  exact h

theorem ratSqrt_nine_over_25 : ratSqrt (9 / 25 : ℚ) = 3 / 5 := by
  have h := ratSqrt_mul_self (3 / 5) (by norm_num)
  rw [show ((3 : ℚ) / 5) * (3 / 5) = 9 / 25 by norm_num] at h
  exact h

theorem ratSqrt_sixteen_over_25 : ratSqrt (16 / 25 : ℚ) = 4 / 5 := by
  have h := ratSqrt_mul_self (4 / 5) (by norm_num)
  rw [show ((4 : ℚ) / 5) * (4 / 5) = 16 / 25 by norm_num] at h
  exact h

/-- Model of `Fp::cos`; no claim depends on its value. -/
def cosQ (_ : ℚ) : ℚ := 1

/-- Model of `Fp::sin`; no claim depends on its value. -/
def sinQ (_ : ℚ) : ℚ := 0

/-- Model of `Fp::atan2`; it only feeds the sphere `u` coordinate, which no
claim inspects. -/
def atan2Q (_y _x : ℚ) : ℚ := 0

/-- Model of `Fp::acos`; it only feeds the sphere `v` coordinate, which no
claim inspects. -/
def acosQ (_ : ℚ) : ℚ := 0

/-- Model of `Fp::powi`. -/
def powiQ (x : ℚ) (n : ℕ) : ℚ := x ^ n

/-- `Vec3<Fp>` from `vecmath.rs`. -/
structure Vec3Q where
  x : ℚ
  y : ℚ
  z : ℚ
deriving DecidableEq, Repr

/-- `Color3F` is the same type as `Vec3F` in the source. -/
abbrev Color3Q := Vec3Q

namespace Vec3Q

/-- `Vec3::new`. -/
def new (x y z : ℚ) : Vec3Q := ⟨x, y, z⟩

/-- `Vec3::zero`. -/
def zero : Vec3Q := ⟨0, 0, 0⟩

instance : Add Vec3Q := ⟨fun a b => ⟨a.x + b.x, a.y + b.y, a.z + b.z⟩⟩
instance : Sub Vec3Q := ⟨fun a b => ⟨a.x - b.x, a.y - b.y, a.z - b.z⟩⟩
instance : Neg Vec3Q := ⟨fun a => ⟨-a.x, -a.y, -a.z⟩⟩

/-- Component-wise `Mul for Vec3<T>`. -/
instance : Mul Vec3Q := ⟨fun a b => ⟨a.x * b.x, a.y * b.y, a.z * b.z⟩⟩

/-- `Mul<Vec3<Fp>> for Fp` (scalar times vector). -/
instance : HMul ℚ Vec3Q Vec3Q := ⟨fun s v => ⟨s * v.x, s * v.y, s * v.z⟩⟩

/-- `Mul<T> for Vec3<T>` (vector times scalar). -/
instance : HMul Vec3Q ℚ Vec3Q := ⟨fun v s => ⟨v.x * s, v.y * s, v.z * s⟩⟩

/-- `Div<T> for Vec3<T>` (component-wise division by a scalar). -/
instance : HDiv Vec3Q ℚ Vec3Q := ⟨fun v s => ⟨v.x / s, v.y / s, v.z / s⟩⟩

@[simp] theorem add_def (a b : Vec3Q) : a + b = ⟨a.x + b.x, a.y + b.y, a.z + b.z⟩ := rfl

@[simp] theorem sub_def (a b : Vec3Q) : a - b = ⟨a.x - b.x, a.y - b.y, a.z - b.z⟩ := rfl

@[simp] theorem neg_def (a : Vec3Q) : -a = ⟨-a.x, -a.y, -a.z⟩ := rfl

@[simp] theorem mul_def (a b : Vec3Q) : a * b = ⟨a.x * b.x, a.y * b.y, a.z * b.z⟩ := rfl

@[simp] theorem smul_def (s : ℚ) (v : Vec3Q) : s * v = ⟨s * v.x, s * v.y, s * v.z⟩ := rfl

@[simp] theorem muls_def (v : Vec3Q) (s : ℚ) : v * s = ⟨v.x * s, v.y * s, v.z * s⟩ := rfl

@[simp] theorem divs_def (v : Vec3Q) (s : ℚ) : v / s = ⟨v.x / s, v.y / s, v.z / s⟩ := rfl

/-- `Vec3::length_squared`. -/
def length_squared (v : Vec3Q) : ℚ := v.x * v.x + v.y * v.y + v.z * v.z

/-- `Vec3::length`. -/
def length (v : Vec3Q) : ℚ := ratSqrt v.length_squared

/-- `Vec3::normalized`. -/
def normalized (v : Vec3Q) : Vec3Q := v / v.length

theorem length_squared_nonneg (v : Vec3Q) : 0 ≤ v.length_squared := by
  have hx : 0 ≤ v.x * v.x := mul_self_nonneg _
  have hy : 0 ≤ v.y * v.y := mul_self_nonneg _
  have hz : 0 ≤ v.z * v.z := mul_self_nonneg _
  unfold length_squared
  linarith

end Vec3Q

/-- Free function `dot` from `vecmath.rs`. -/
def dotQ (a b : Vec3Q) : ℚ := a.x * b.x + a.y * b.y + a.z * b.z

/-- Free function `cross` from `vecmath.rs`. -/
def crossQ (a b : Vec3Q) : Vec3Q :=
  ⟨a.y * b.z - a.z * b.y, a.z * b.x - a.x * b.z, a.x * b.y - a.y * b.x⟩

/-- Free function `reflect` (defined in `materials.rs`, re-exported through
`vecmath` in the version `scene.rs` builds against):
`in_dir - 2 * dot(in_dir, normal) * normal`. -/
def reflectQ (in_dir normal : Vec3Q) : Vec3Q :=
  in_dir - (2 * dotQ in_dir normal) * normal

/-- Free function `refract` from `materials.rs`/`scene.rs`. -/
def refractQ (in_dir normal : Vec3Q) (refrac_index : ℚ) : Vec3Q :=
  let refrac_dir_perp := refrac_index * (in_dir - (dotQ in_dir normal) * normal)
  let side_len := in_dir.length_squared - refrac_dir_perp.length_squared
  let refrac_dir_parallel := (-1 : ℚ) * ratSqrt |side_len| * normal
  refrac_dir_perp + refrac_dir_parallel

/-- Function `from_local_to_world_space` from `materials.rs`. -/
def from_local_to_world_space (n local_v : Vec3Q) : Vec3Q :=
  let local_axis_z := n.normalized
  let tmp : Vec3Q := if |local_axis_z.x| > 9 / 10 then ⟨0, 1, 0⟩ else ⟨1, 0, 0⟩
  let local_axis_y := (crossQ local_axis_z tmp).normalized
  let local_axis_x := crossQ local_axis_z local_axis_y
  (local_v.x * local_axis_x) + (local_v.y * local_axis_y) + (local_v.z * local_axis_z)

/-- Model of Rust's half-open range `Range<Fp>` (`start..end`). -/
structure RangeQ where
  start : ℚ
  stop : ℚ
deriving DecidableEq, Repr

/-- `Range::contains`: `start <= t && t < end`. -/
def RangeQ.containsQ (r : RangeQ) (t : ℚ) : Bool :=
  decide (r.start ≤ t ∧ t < r.stop)

/-- Model of the pseudo-random generator (`&mut R` with `R: rand::Rng`)
threaded through every sampling call: an infinite stream of draws
(idealised to lie in `[0,1)`) together with the current position.  Passing
the generator by `&mut` in Rust corresponds to returning the advanced
generator alongside each result. -/
structure Rng where
  stream : ℕ → ℚ
  idx : ℕ

/-- Draw the next raw value and advance. -/
def Rng.next (r : Rng) : ℚ × Rng := (r.stream r.idx, ⟨r.stream, r.idx + 1⟩)

/-- Model of `rand.gen_range(lo..hi)` on floats: the next stream draw `u`
mapped affinely onto `[lo, hi)`. -/
def Rng.genRange (r : Rng) (lo hi : ℚ) : ℚ × Rng :=
  let p := r.next
  (lo + (hi - lo) * p.1, p.2)

/-- Model of `rand.gen_range(0..n)` on `usize`. -/
def Rng.genRangeNat (r : Rng) (n : ℕ) : ℕ × Rng :=
  let p := r.next
  (min (Int.toNat ⌊p.1 * n⌋) (n - 1), p.2)

/-- `Vec3::random_fp_range` from `vecmath.rs`: three successive
`gen_range` draws for the three components. -/
def Vec3Q.random_fp_range (r : Rng) (lo hi : ℚ) : Vec3Q × Rng :=
  let px := r.genRange lo hi
  let py := px.2.genRange lo hi
  let pz := py.2.genRange lo hi
  (⟨px.1, py.1, pz.1⟩, pz.2)

/-- The pixel store of `image.rs`, restricted to what `pixel_at_uv` needs:
dimensions and the row-major list of RGB byte triples. -/
structure Image where
  width : ℕ
  height : ℕ
  pixels : List (ℕ × ℕ × ℕ)

/-- `Image::pixel_at_uv`.  The `as u32` casts truncate the non-negative
products, i.e. take the floor; an out-of-range index (a panic in Rust)
reads as black. -/
def Image.pixel_at_uv (img : Image) (u v : ℚ) : Color3Q :=
  let w0 := Int.toNat ⌊u * (img.width : ℚ)⌋
  let w := if w0 ≥ img.width then img.width - 1 else w0
  let h0 := Int.toNat ⌊v * (img.height : ℚ)⌋
  let h := if h0 ≥ img.height then img.height - 1 else h0
  let index := h * img.width + w
  let p := img.pixels.getD index (0, 0, 0)
  ⟨(p.1 : ℚ) * (1 / 255), (p.2.1 : ℚ) * (1 / 255), (p.2.2 : ℚ) * (1 / 255)⟩

/-- `TextureSolidColor` from `textures.rs`. -/
structure TextureSolidColor where
  color : Color3Q
deriving DecidableEq, Repr

/-- `TextureSolidColor::new`. -/
def TextureSolidColor.new (color : Color3Q) : TextureSolidColor := ⟨color⟩

/-- `TextureSolidColor::value`. -/
def TextureSolidColor.value (t : TextureSolidColor) : Color3Q := t.color

/-- `TextureChecker` from `textures.rs`; field order as in the source:
`odd_color`, `even_color`, `inv_scale`. -/
structure TextureChecker where
  odd_color : Color3Q
  even_color : Color3Q
  inv_scale : ℚ
deriving DecidableEq, Repr

/-- `TextureChecker::new(odd_color, even_color, scale)`. -/
def TextureChecker.new (odd_color even_color : Color3Q) (scale : ℚ) : TextureChecker :=
  ⟨odd_color, even_color, 1 / scale⟩

/-- Rust's saturating `as i32` cast applied to a floored float. -/
def i32SatOfFloor (q : ℚ) : ℤ :=
  max (-(2 ^ 31)) (min (2 ^ 31 - 1) ⌊q⌋)

/-- `TextureChecker::value`.  The `i32` sum may wrap in release builds;
wrapping modulo `2^32` preserves parity, so the mathematical sum is used. -/
def TextureChecker.value (t : TextureChecker) (pos : Vec3Q) : Color3Q :=
  let xi := i32SatOfFloor (pos.x * t.inv_scale)
  let yi := i32SatOfFloor (pos.y * t.inv_scale)
  let zi := i32SatOfFloor (pos.z * t.inv_scale)
  let is_even := (xi + yi + zi) % 2 = 0
  if is_even then t.even_color else t.odd_color

/-- `TextureImage` from `textures.rs`, holding a decoded image. -/
structure TextureImage where
  image : Image

/-- `TextureImage::value`. -/
def TextureImage.value (t : TextureImage) (u v : ℚ) : Color3Q :=
  if t.image.width = 0 ∨ t.image.height = 0 then ⟨0, 1, 1⟩
  else
    let u' := min (max u 0) 1
    let v' := 1 - min (max v 0) 1
    t.image.pixel_at_uv u' v'

/-- The `Texture` enum from `textures.rs`. -/
inductive Texture where
  | Solid (t : TextureSolidColor)
  | Checker (t : TextureChecker)
  | Image (t : TextureImage)

/-- `Texture::value`. -/
def Texture.value (t : Texture) (u v : ℚ) (pos : Vec3Q) : Color3Q :=
  match t with
  | .Solid tex => tex.value
  | .Checker tex => tex.value pos
  | .Image tex => tex.value u v

/-- `MaterialDiffuse` from `materials.rs`. -/
structure MaterialDiffuse where
  tex : Texture

/-- `MaterialDiffuse::new_solid_color`. -/
def MaterialDiffuse.new_solid_color (albedo : Color3Q) : MaterialDiffuse :=
  ⟨Texture.Solid (TextureSolidColor.new albedo)⟩

/-- `MaterialDiffuse::new_checker(even, odd, scale)`: note that the source
forwards its `even` argument into `TextureChecker::new`'s first parameter,
which is `odd_color`, and its `odd` argument into the second, which is
`even_color`. -/
def MaterialDiffuse.new_checker (even odd : Color3Q) (scale : ℚ) : MaterialDiffuse :=
  ⟨Texture.Checker (TextureChecker.new even odd scale)⟩

/-- Modelled from the spec: `MaterialDiffuse::tex_color`, called by
`Scene::scatter`, is absent from the `materials.rs` snapshot (which only
has the texture lookup itself); the spec says the diffuse albedo "comes
from a texture lookup", so it forwards to `Texture::value`. -/
def MaterialDiffuse.tex_color (m : MaterialDiffuse) (u v : ℚ) (pos : Vec3Q) : Color3Q :=
  m.tex.value u v pos

/-- `MaterialMetal` from `materials.rs`. -/
structure MaterialMetal where
  albedo : Color3Q
  fuzz : ℚ
deriving DecidableEq, Repr

/-- `MaterialMetal::new`, clamping `fuzz` into `[-1, 1]`. -/
def MaterialMetal.new (albedo : Color3Q) (fuzz : ℚ) : MaterialMetal :=
  ⟨albedo, if fuzz < -1 then -1 else if fuzz > 1 then 1 else fuzz⟩

/-- `MaterialDielectric` from `materials.rs`. -/
structure MaterialDielectric where
  refrac_index : ℚ
deriving DecidableEq, Repr

/-- `MaterialDielectric::new`. -/
def MaterialDielectric.new (refrac_index : ℚ) : MaterialDielectric := ⟨refrac_index⟩

/-- `MaterialDielectric::reflectance` (Schlick's approximation). -/
def MaterialDielectric.reflectance (cos_in_angle refrac_index : ℚ) : ℚ :=
  let r0 := (1 - refrac_index) / (1 + refrac_index)
  let r0 := r0 * r0
  r0 + (1 - r0) * powiQ (1 - cos_in_angle) 5

/-- `MaterialDiffuseLight` from `materials.rs`. -/
structure MaterialDiffuseLight where
  albedo : Color3Q
deriving DecidableEq, Repr

/-- `MaterialDiffuseLight::new`. -/
def MaterialDiffuseLight.new (albedo : Color3Q) : MaterialDiffuseLight := ⟨albedo⟩

/-- `MaterialDiffuseLight::emit`. -/
def MaterialDiffuseLight.emitAt (m : MaterialDiffuseLight) (_u _v : ℚ) (_p : Vec3Q) : Color3Q :=
  m.albedo

/-- The `Material` enum from `materials.rs`. -/
inductive Material where
  | Diffuse (m : MaterialDiffuse)
  | Metal (m : MaterialMetal)
  | Dielectric (m : MaterialDielectric)
  | DiffuseLight (m : MaterialDiffuseLight)

/-- `Material::emit`: the emission color, zero for every variant except
`DiffuseLight`. -/
def Material.emit (m : Material) : Color3Q :=
  match m with
  | .DiffuseLight mat => mat.emitAt 0 0 Vec3Q.zero
  | _ => Vec3Q.zero

/-- Extended scalar for the AABB slab test, where the IEEE semantics of
`1/0 = inf`, `0 * inf = NaN` and the NaN-tolerant `Fp::max`/`Fp::min` are
load-bearing.  Everywhere else values are finite and plain `ℚ` is used. -/
inductive EFp where
  | fin (q : ℚ)
  | posInf
  | negInf
  | nan
deriving DecidableEq, Repr

namespace EFp

/-- IEEE strict less-than: false whenever an operand is NaN. -/
def ltE : EFp → EFp → Bool
  | .nan, _ => false
  | _, .nan => false
  | .negInf, .negInf => false
  | .negInf, _ => true
  | _, .negInf => false
  | .posInf, _ => false
  | .fin _, .posInf => true
  | .fin a, .fin b => decide (a < b)

/-- `Fp::max`: returns the other operand when one is NaN. -/
def fmax (a b : EFp) : EFp :=
  match a, b with
  | .nan, y => y
  | x, .nan => x
  | x, y => if x.ltE y then y else x

/-- `Fp::min`: returns the other operand when one is NaN. -/
def fmin (a b : EFp) : EFp :=
  match a, b with
  | .nan, y => y
  | x, .nan => x
  | x, y => if x.ltE y then x else y

/-- Finite times extended: `0 * inf = NaN`, otherwise sign rules. -/
def mulQ (q : ℚ) : EFp → EFp
  | .fin r => .fin (q * r)
  | .posInf => if q > 0 then .posInf else if q < 0 then .negInf else .nan
  | .negInf => if q > 0 then .negInf else if q < 0 then .posInf else .nan
  | .nan => .nan

/-- IEEE sign test `x < 0.0` used for the precomputed sign bits. -/
def isNeg : EFp → Bool
  | .fin q => decide (q < 0)
  | .negInf => true
  | _ => false

end EFp

/-- Reciprocal of a direction component: `1.0 / 0.0 = +inf` (`ℚ` has no
negative zero, so the `-0.0` branch cannot arise in the model). -/
def invOf (q : ℚ) : EFp := if q = 0 then .posInf else .fin (1 / q)

/-- The `Ray` struct from `shapes.rs`: origin, direction, precomputed
inverse direction and per-axis sign bits (`true` models sign bit `1`). -/
structure Ray where
  origin : Vec3Q
  direction : Vec3Q
  inv_dir : EFp × EFp × EFp
  signs : Bool × Bool × Bool

/-- `Ray::new`. -/
def Ray.new (origin dir : Vec3Q) : Ray :=
  let ix := invOf dir.x
  let iy := invOf dir.y
  let iz := invOf dir.z
  ⟨origin, dir, (ix, iy, iz), (ix.isNeg, iy.isNeg, iz.isNeg)⟩

@[simp] theorem Ray.new_origin (o d : Vec3Q) : (Ray.new o d).origin = o := rfl

@[simp] theorem Ray.new_direction (o d : Vec3Q) : (Ray.new o d).direction = d := rfl

/-- The `RayIntersection` record from `shapes.rs`. -/
structure RayIntersection where
  hit : Bool
  t : ℚ
  is_normal_outward : Bool
  hit_point : Vec3Q
  normal : Vec3Q
  u : ℚ
  v : ℚ
deriving DecidableEq, Repr

/-- `Default::default()` for `RayIntersection`: all fields zero/false. -/
def RayIntersection.mkDefault : RayIntersection :=
  ⟨false, 0, false, Vec3Q.zero, Vec3Q.zero, 0, 0⟩

instance : Inhabited RayIntersection := ⟨RayIntersection.mkDefault⟩

/-- The `Sphere` struct from `shapes.rs`. -/
structure Sphere where
  position : Vec3Q
  radius : ℚ
  material : Material

/-- `Sphere::new`. -/
def Sphere.new (position : Vec3Q) (radius : ℚ) (material : Material) : Sphere :=
  ⟨position, radius, material⟩

/-- `Sphere::get_sphere_uv`: cylindrical longitude/latitude mapping. -/
def Sphere.get_sphere_uv (_s : Sphere) (unit_sphere_p : Vec3Q) : ℚ × ℚ :=
  let phi := atan2Q (-unit_sphere_p.z) unit_sphere_p.x + piQ
  let theta := acosQ (-unit_sphere_p.y)
  (phi / (2 * piQ), theta / piQ)

/-- `Sphere::ray_intersect`: quadratic solve, smaller root preferred if it
lies in `limits`, else the larger root, else a miss; the returned normal is
flipped to oppose the ray. -/
def Sphere.ray_intersect (s : Sphere) (ray : Ray) (limits : RangeQ) : RayIntersection :=
  let center_to_origin := ray.origin - s.position
  let a := dotQ ray.direction ray.direction
  let half_b := dotQ center_to_origin ray.direction
  let c := center_to_origin.length_squared - s.radius * s.radius
  let discriminant := half_b * half_b - a * c
  let hitT : Bool × ℚ :=
    if discriminant < 0 then (false, 0)
    else
      let discriminant_sqrt := ratSqrt discriminant
      let t1 := (-half_b - discriminant_sqrt) / a
      if limits.containsQ t1 then (true, t1)
      else
        let t2 := (-half_b + discriminant_sqrt) / a
        (limits.containsQ t2, t2)
  let hit_point := ray.origin + hitT.2 * ray.direction
  let normal0 := (hit_point - s.position) / s.radius
  let flipped : Vec3Q × Bool :=
    if dotQ normal0 ray.direction > 0 then (normal0 * (-1 : ℚ), false) else (normal0, true)
  let uv := s.get_sphere_uv flipped.1
  { hit := hitT.1, t := hitT.2, is_normal_outward := flipped.2,
    hit_point := hit_point, normal := flipped.1, u := uv.1, v := uv.2 }

/-- The `Quad` struct from `shapes.rs` (edges stored as two fields). -/
structure Quad where
  corner : Vec3Q
  edge0 : Vec3Q
  edge1 : Vec3Q
  normal : Vec3Q
  w : Vec3Q
  d : ℚ
  material : Material

/-- `Quad::new` (the four-argument constructor of `shapes.rs`; the extra
translation/rotation arguments used by `scene.rs` belong to a version of
`shapes.rs` not in this snapshot and do not affect the geometry fields). -/
def Quad.new (corner edge0 edge1 : Vec3Q) (material : Material) : Quad :=
  let n := crossQ edge0 edge1
  let n_len_sqr := n.length_squared
  let normal := n / ratSqrt n_len_sqr
  let w := n / n_len_sqr
  let d := dotQ normal corner
  ⟨corner, edge0, edge1, normal, w, d, material⟩

/-- `Quad::other_corner`. -/
def Quad.other_corner (q : Quad) : Vec3Q := q.corner + q.edge0 + q.edge1

/-- `Quad::ray_intersect`: plane intersection guarded by the denominator
threshold, then the barycentric-style inside test; note the returned
normal is the stored plane normal, never flipped against the ray. -/
def Quad.ray_intersect (q : Quad) (ray : Ray) (limits : RangeQ) : RayIntersection :=
  let denominator := dotQ q.normal ray.direction
  if |denominator| > 1 / 100000000 then
    let t := (q.d - dotQ q.normal ray.origin) / denominator
    if limits.containsQ t then
      let hit_point := ray.origin + t * ray.direction
      let corner_to_hit_point := hit_point - q.corner
      let alpha := dotQ q.w (crossQ corner_to_hit_point q.edge1)
      let beta := dotQ q.w (crossQ q.edge0 corner_to_hit_point)
      if 0 ≤ alpha ∧ alpha ≤ 1 ∧ 0 ≤ beta ∧ beta ≤ 1 then
        { hit := true, t := t, is_normal_outward := false, hit_point := hit_point,
          normal := q.normal, u := alpha, v := beta }
      else RayIntersection.mkDefault
    else RayIntersection.mkDefault
  else RayIntersection.mkDefault

/-- The `Aabb` struct from `shapes.rs`: `lo` models `bounds[0]` (min
corner), `hi` models `bounds[1]` (max corner). -/
structure Aabb where
  lo : Vec3Q
  hi : Vec3Q
deriving DecidableEq, Repr

namespace Aabb

/-- `Aabb::from_sphere`. -/
def from_sphere (s : Sphere) : Aabb :=
  let extent : Vec3Q := ⟨s.radius, s.radius, s.radius⟩
  ⟨s.position - extent, s.position + extent⟩

/-- `Aabb::from_quad`: corner-wise min/max, then each axis thinner than
`delta = 1e-4` is padded by `delta/2` on both sides. -/
def from_quad (q : Quad) : Aabb :=
  let p0 := q.corner
  let p1 := q.other_corner
  let lo : Vec3Q := ⟨min p0.x p1.x, min p0.y p1.y, min p0.z p1.z⟩
  let hi : Vec3Q := ⟨max p0.x p1.x, max p0.y p1.y, max p0.z p1.z⟩
  let delta : ℚ := 1 / 10000
  let bx : ℚ × ℚ :=
    if hi.x - lo.x < delta then (lo.x - delta / 2, hi.x + delta / 2) else (lo.x, hi.x)
  let by' : ℚ × ℚ :=
    if hi.y - lo.y < delta then (lo.y - delta / 2, hi.y + delta / 2) else (lo.y, hi.y)
  let bz : ℚ × ℚ :=
    if hi.z - lo.z < delta then (lo.z - delta / 2, hi.z + delta / 2) else (lo.z, hi.z)
  ⟨⟨bx.1, by'.1, bz.1⟩, ⟨bx.2, by'.2, bz.2⟩⟩

/-- `Aabb::merge`: component-wise min of the min corners and max of the
max corners. -/
def merge (a b : Aabb) : Aabb :=
  ⟨⟨min a.lo.x b.lo.x, min a.lo.y b.lo.y, min a.lo.z b.lo.z⟩,
   ⟨max a.hi.x b.hi.x, max a.hi.y b.hi.y, max a.hi.z b.hi.z⟩⟩

/-- `Aabb::ray_intersect`: the sign-indexed slab test with NaN-tolerant
max/min, strict `tmin < tmax`. -/
def ray_intersect (b : Aabb) (ray : Ray) : Bool :=
  let tmin0 := EFp.mulQ ((if ray.signs.1 then b.hi.x else b.lo.x) - ray.origin.x) ray.inv_dir.1
  let tmax0 := EFp.mulQ ((if ray.signs.1 then b.lo.x else b.hi.x) - ray.origin.x) ray.inv_dir.1
  let ty_min := EFp.mulQ ((if ray.signs.2.1 then b.hi.y else b.lo.y) - ray.origin.y) ray.inv_dir.2.1
  let ty_max := EFp.mulQ ((if ray.signs.2.1 then b.lo.y else b.hi.y) - ray.origin.y) ray.inv_dir.2.1
  let tz_min := EFp.mulQ ((if ray.signs.2.2 then b.hi.z else b.lo.z) - ray.origin.z) ray.inv_dir.2.2
  let tz_max := EFp.mulQ ((if ray.signs.2.2 then b.lo.z else b.hi.z) - ray.origin.z) ray.inv_dir.2.2
  let tmin1 := tmin0.fmax ty_min
  let tmax1 := tmax0.fmin ty_max
  let tmin2 := tmin1.fmax tz_min
  let tmax2 := tmax1.fmin tz_max
  tmin2.ltE tmax2

end Aabb

/-- The `Shape` enum from `shapes.rs`. -/
inductive Shape where
  | Sphere (s : Sphere)
  | Quad (q : Quad)

/-- `Shape::ray_intersect`. -/
def Shape.ray_intersect (sh : Shape) (ray : Ray) (limits : RangeQ) : RayIntersection :=
  match sh with
  | .Sphere s => s.ray_intersect ray limits
  | .Quad q => q.ray_intersect ray limits

/-- `Shape::calc_aabb`. -/
def Shape.calc_aabb (sh : Shape) : Aabb :=
  match sh with
  | .Sphere s => Aabb.from_sphere s
  | .Quad q => Aabb.from_quad q

/-- `Shape::get_material`. -/
def Shape.get_material (sh : Shape) : Material :=
  match sh with
  | .Sphere s => s.material
  | .Quad q => q.material

/-- `MaterialDiffuse::scattering_pdf`. -/
def MaterialDiffuse.scattering_pdf (_m : MaterialDiffuse) (surface_normal : Vec3Q)
    (scattered_ray : Ray) : ℚ :=
  let cos_theta := dotQ surface_normal scattered_ray.direction.normalized
  if cos_theta < 0 then 0 else cos_theta / piQ

/-- `Material::scattering_pdf`. -/
def Material.scattering_pdf (m : Material) (surface_normal : Vec3Q)
    (scattered_ray : Ray) : ℚ :=
  match m with
  | .Diffuse mat => mat.scattering_pdf surface_normal scattered_ray
  | _ => 1

/-- The `PdfSample` struct from `scene.rs`. -/
structure PdfSample where
  dir : Vec3Q
  probability : ℚ

/-- `PdfCosineHemisphere::gen_sample` from `scene.rs` (the struct carries
no state, so the sampler is a plain function): two uniform draws mapped to
a cosine-weighted hemisphere direction in the local frame, with PDF value
`z / PI`. -/
def PdfCosineHemisphere.gen_sample (rand : Rng) : PdfSample × Rng :=
  let p1 := rand.genRange 0 1
  let p2 := p1.2.genRange 0 1
  let r1 := p1.1
  let r2 := p2.1
  let phi := 2 * piQ * r1
  let x := cosQ phi * ratSqrt r2
  let y := sinQ phi * ratSqrt r2
  let z := ratSqrt (1 - r2)
  let probability := z / piQ
  (⟨⟨x, y, z⟩, probability⟩, p2.2)

/-- The `ScatterResult` struct from `scene.rs`. -/
structure ScatterResult where
  ray : Ray
  albedo : Color3Q
  probability : ℚ
  skip_pdf : Bool

/-- Fuel bound for the rejection-sampling `loop` in the metal arm of
`Scene::scatter`.  The Rust loop retries unboundedly until a draw lands in
the unit ball; the model retries up to this many times and then falls back
to the `+z` unit vector (no claim depends on the vector produced). -/
def metalLoopFuel : ℕ := 1000000

/-- The rejection-sampling `loop` in the metal arm of `Scene::scatter`:
draw a vector with components in `[-1, 1)` until its squared length lies
in `[1e-8, 1]`, then normalise it. -/
def randUnitFromRng : ℕ → Rng → Vec3Q × Rng
  | 0, rand => (⟨0, 0, 1⟩, rand)
  | fuel + 1, rand =>
    let p := Vec3Q.random_fp_range rand (-1) 1
    let rand_dir := p.1
    let len_sqr := rand_dir.length_squared
    if len_sqr ≤ 1 ∧ len_sqr ≥ 1 / 100000000 then
      (rand_dir / ratSqrt len_sqr, p.2)
    else
      randUnitFromRng fuel p.2

/-- The `Scene` struct from `scene.rs` (the BVH field is commented out in
the source). -/
structure Scene where
  materials : List Material
  shapes : List Shape
  lights : List Shape
  is_background_sky : Bool

/-- `Scene::scatter` from `scene.rs` (an associated function: `self` is
unused).  Mutation of the `&mut` generator is modelled by returning the
advanced generator; in the dielectric arm the uniform draw happens only
when the total-internal-reflection test fails, mirroring the
short-circuiting `||` in the source. -/
def Scene.scatter (incident_ray : Ray) (intersection : RayIntersection)
    (material : Material) (rand : Rng) : Option ScatterResult × Rng :=
  match material with
  | .Diffuse mat =>
    let p := PdfCosineHemisphere.gen_sample rand
    let sample := p.1
    let scattered_ray := from_local_to_world_space intersection.normal sample.dir
    (some { ray := Ray.new intersection.hit_point scattered_ray,
            albedo := mat.tex_color intersection.u intersection.v intersection.hit_point,
            probability := sample.probability,
            skip_pdf := true }, p.2)
  | .Metal mat =>
    let reflected_dir := reflectQ incident_ray.direction intersection.normal
    let p := randUnitFromRng metalLoopFuel rand
    let random_unit_dir := p.1
    let scattered_ray := reflected_dir.normalized + mat.fuzz * random_unit_dir
    if dotQ scattered_ray intersection.normal > 0 then
      (some { ray := Ray.new intersection.hit_point scattered_ray,
              albedo := mat.albedo,
              probability := 1,
              skip_pdf := true }, p.2)
    else
      (none, p.2)
  | .Dielectric mat =>
    let attenuation : Color3Q := ⟨1, 1, 1⟩
    let refrac_index :=
      if intersection.is_normal_outward then 1 / mat.refrac_index else mat.refrac_index
    let in_dir_normalized := incident_ray.direction.normalized
    let cos_in_angle := min (dotQ in_dir_normalized (-intersection.normal)) 1
    let sin_in_angle := ratSqrt (1 - cos_in_angle * cos_in_angle)
    let nr : Bool × Rng :=
      if refrac_index * sin_in_angle > 1 then (true, rand)
      else
        let p := rand.genRange 0 1
        (decide (MaterialDielectric.reflectance cos_in_angle refrac_index > p.1), p.2)
    let out_dir :=
      if nr.1 then reflectQ incident_ray.direction intersection.normal
      else refractQ incident_ray.direction intersection.normal refrac_index
    (some { ray := Ray.new intersection.hit_point out_dir,
            albedo := attenuation,
            probability := 1,
            skip_pdf := true }, nr.2)
  | _ => (none, rand)

/-- One step of the nearest-hit linear scan inlined at the top of
`Scene::trace`: intersect the shape over `[0.001, Fp::MAX)` and keep the
strictly closer hit. -/
def Scene.nearestHitStep (ray : Ray) (acc : RayIntersection × Option Material)
    (shape : Shape) : RayIntersection × Option Material :=
  let limits : RangeQ := ⟨1 / 1000, fpMax⟩
  let intersection := shape.ray_intersect ray limits
  if intersection.hit = true ∧ intersection.t < acc.1.t then
    (intersection, some shape.get_material)
  else acc

/-- The nearest-hit linear scan inlined at the top of `Scene::trace`,
extracted as a definition: fold `nearestHitStep` over the shape list
starting from a default record with `t = Fp::MAX` and no material. -/
def Scene.nearestHit (s : Scene) (ray : Ray) : RayIntersection × Option Material :=
  s.shapes.foldl (Scene.nearestHitStep ray) ({ RayIntersection.mkDefault with t := fpMax }, none)

/-- Modelled from the spec: `Shape::gen_random_dir`, the primitive's
"random direction toward point X" operation consumed by
`pdf_mixure_sample`.  The `shapes.rs` snapshot does not contain it and the
spec gives it no closed form; it is modelled as a draw-consuming direction
toward a point of the shape.  It is unreachable from `Scene::trace` (see
the C10 theorem). -/
def Shape.gen_random_dir (sh : Shape) (origin : Vec3Q) (rand : Rng) : Vec3Q × Rng :=
  let p := rand.genRange 0 1
  match sh with
  | .Sphere s => (s.position - origin, p.2)
  | .Quad q => (q.corner + p.1 * (q.edge0 + q.edge1) - origin, p.2)

/-- Modelled from the spec: `Shape::pdf_value`, the shape's solid-angle
PDF for a ray, also absent from this snapshot and given no formula by the
spec; modelled as an unspecified constant.  It is unreachable from
`Scene::trace` (see the C10 theorem). -/
def Shape.pdf_value (_sh : Shape) (_ray : Ray) : ℚ := 1

/-- `Scene::pdf_mixure_sample`: direction toward a uniformly chosen light
paired with the averaged solid-angle PDF over all lights. -/
def Scene.pdf_mixure_sample (s : Scene) (origin : Vec3Q) (rand : Rng) : (Vec3Q × ℚ) × Rng :=
  if s.lights.length > 0 then
    let pIdx := rand.genRangeNat s.lights.length
    let light_index := pIdx.1
    let junkShape : Shape :=
      Shape.Sphere (Sphere.new Vec3Q.zero 0 (Material.DiffuseLight (MaterialDiffuseLight.new Vec3Q.zero)))
    let pDir := (s.lights.getD light_index junkShape).gen_random_dir origin pIdx.2
    let random_dir := pDir.1
    let weight := 1 / (s.lights.length : ℚ)
    let sum := s.lights.foldl
      (fun acc shape =>
        let ray := Ray.new origin random_dir
        acc + weight * shape.pdf_value ray) 0
    ((random_dir, sum), pDir.2)
  else
    ((Vec3Q.zero, 0), rand)

/-- `Scene::TRACE_MAX_DEPTH`. -/
def traceMaxDepth : ℕ := 50

/-- `Scene::trace` from `scene.rs`, parametrised by the light-mixture
sampler called in its non-skip branch; `Scene.trace` below instantiates
the parameter with `Scene.pdf_mixure_sample`, giving exactly the source
function.  (The parametrisation lets the development state that the branch
is unreachable.)  The material `unwrap()` on a hit is modelled by `getD`
with a zero-emission junk material; the recursion is on `depth`, cut off
above `traceMaxDepth` exactly as in the source. -/
def Scene.traceWith (mix : Scene → Vec3Q → Rng → (Vec3Q × ℚ) × Rng)
    (s : Scene) (ray : Ray) (rand : Rng) (depth : ℕ) : Color3Q :=
  if _h : depth > traceMaxDepth then Vec3Q.zero
  else
    let nh := s.nearestHit ray
    let nearest_intersection := nh.1
    if nearest_intersection.hit then
      let material := nh.2.getD (Material.DiffuseLight (MaterialDiffuseLight.new Vec3Q.zero))
      let emission_color := material.emit
      match Scene.scatter ray nearest_intersection material rand with
      | (some scattered, rand') =>
        if scattered.skip_pdf then
          scattered.albedo * Scene.traceWith mix s scattered.ray rand' (depth + 1)
        else
          let pm := mix s nearest_intersection.hit_point rand'
          let random_dir := pm.1.1
          let pdf_value := pm.1.2
          let scattered_ray := Ray.new nearest_intersection.hit_point random_dir
          let scattering_pdf := material.scattering_pdf nearest_intersection.normal scattered_ray
          let scatter_color :=
            (scattered.albedo * scattering_pdf * Scene.traceWith mix s scattered_ray pm.2 (depth + 1)) / pdf_value
          scatter_color + emission_color
      | (none, _) => emission_color
    else
      if s.is_background_sky then
        let ray_dir_normalized := ray.direction.normalized
        let a := 1 / 2 * (ray_dir_normalized.y + 1)
        (⟨1, 1, 1⟩ : Color3Q) * (1 - a) + (⟨1 / 2, 7 / 10, 1⟩ : Color3Q) * a
      else
        Vec3Q.zero
termination_by traceMaxDepth + 1 - depth
decreasing_by
  all_goals omega

/-- `Scene::trace` proper: `traceWith` instantiated with the source's
`pdf_mixure_sample`. -/
def Scene.trace (s : Scene) (ray : Ray) (rand : Rng) (depth : ℕ) : Color3Q :=
  Scene.traceWith Scene.pdf_mixure_sample s ray rand depth

/-- `Scene::one_sphere`: a single diffuse sphere, sky background. -/
def Scene.one_sphere : Scene :=
  let mat := Material.Diffuse (MaterialDiffuse.new_solid_color ⟨7 / 10, 3 / 10, 3 / 10⟩)
  { materials := [mat],
    shapes := [Shape.Sphere (Sphere.new ⟨0, 0, -1⟩ (1 / 2) mat)],
    lights := [],
    is_background_sky := true }

/-- The `BvhNode` enum from `scene.rs` (`BvhLeaf` and `BvhLink` flattened
into constructor fields; `Arc` sharing modelled by plain ownership). -/
inductive BvhNode where
  | Leaf (aabb : Aabb) (shape_index : ℕ)
  | Link (aabb : Aabb) (left right : BvhNode)

/-- `BvhNode::aabb`. -/
def BvhNode.nodeAabb : BvhNode → Aabb
  | .Leaf a _ => a
  | .Link a _ _ => a

/-- Stand-in for a Rust index-out-of-bounds panic when a shape list is
indexed past its end; unreachable for the indices `build_bvh` produces. -/
def outOfRangeShape : Shape :=
  Shape.Sphere (Sphere.new Vec3Q.zero 0 (Material.DiffuseLight (MaterialDiffuseLight.new Vec3Q.zero)))

/-- `build_bvh` from `scene.rs`: midpoint split until a one-shape leaf,
children's boxes merged bottom-up.  The recursion is bounded by the slice
length (`take`/`drop` at `middle >= 1` strictly shrink), threaded here as
structural fuel so the definition evaluates in the kernel; the source
recurses only on non-empty slices (an empty slice would not terminate in
Rust), modelled by a degenerate leaf. -/
def build_bvh_fuel : ℕ → List Shape → ℕ → BvhNode
  | 0, _, shape_start => .Leaf ⟨Vec3Q.zero, Vec3Q.zero⟩ shape_start
  | _ + 1, [], shape_start => .Leaf ⟨Vec3Q.zero, Vec3Q.zero⟩ shape_start
  | _ + 1, [sh], shape_start => .Leaf sh.calc_aabb shape_start
  | fuel + 1, sh0 :: sh1 :: rest, shape_start =>
    let shapes := sh0 :: sh1 :: rest
    let middle := shapes.length / 2
    let left := build_bvh_fuel fuel (shapes.take middle) shape_start
    let right := build_bvh_fuel fuel (shapes.drop middle) (shape_start + middle)
    .Link (Aabb.merge left.nodeAabb right.nodeAabb) left right

/-- `build_bvh` at its natural fuel. -/
def build_bvh (shapes : List Shape) (shape_start : ℕ) : BvhNode :=
  build_bvh_fuel shapes.length shapes shape_start

/-- `bvh_ray_intersect` from `scene.rs`: reject on the node's box, look up
the leaf shape, or descend left then right with the right child's window
narrowed to the left hit's `t`. -/
def bvh_ray_intersect (node : BvhNode) (shapes : List Shape) (ray : Ray)
    (limits : RangeQ) : RayIntersection × ℕ :=
  if node.nodeAabb.ray_intersect ray then
    match node with
    | .Leaf _ shape_index =>
      ((shapes.getD shape_index outOfRangeShape).ray_intersect ray limits, shape_index)
    | .Link _ left right =>
      let lp := bvh_ray_intersect left shapes ray limits
      let right_limits : RangeQ :=
        ⟨limits.start, if lp.1.hit then lp.1.t else limits.stop⟩
      let rp := bvh_ray_intersect right shapes ray right_limits
      if rp.1.hit then rp else lp
  else
    (RayIntersection.mkDefault, 0)

/-- The linear-scan closest-hit oracle: `Scene::trace`'s inline scan
generalised to an arbitrary window and tracking the winning index
(starting at `base`); the accumulator starts at a default record whose `t`
is the window's upper end (for the trace window that is exactly `Fp::MAX`,
as in the source). -/
def linearScanAux (ray : Ray) (w : RangeQ) :
    List Shape → ℕ → RayIntersection × Option ℕ → RayIntersection × Option ℕ
  | [], _, acc => acc
  | sh :: rest, i, acc =>
    let intersection := sh.ray_intersect ray w
    linearScanAux ray w rest (i + 1)
      (if intersection.hit = true ∧ intersection.t < acc.1.t then (intersection, some i) else acc)

/-- Entry point of the linear-scan oracle. -/
def linearScan (shapes : List Shape) (base : ℕ) (ray : Ray) (w : RangeQ) :
    RayIntersection × Option ℕ :=
  linearScanAux ray w shapes base ({ RayIntersection.mkDefault with t := w.stop }, none)

/-- Proof-side helper: the intersection record a sphere reports when it
selects parameter `t` (the tail of `Sphere::ray_intersect` with the hit
flag forced). -/
def Sphere.recAt (s : Sphere) (ray : Ray) (t : ℚ) : RayIntersection :=
  let hit_point := ray.origin + t * ray.direction
  let normal0 := (hit_point - s.position) / s.radius
  let flipped : Vec3Q × Bool :=
    if dotQ normal0 ray.direction > 0 then (normal0 * (-1 : ℚ), false) else (normal0, true)
  let uv := s.get_sphere_uv flipped.1
  { hit := true, t := t, is_normal_outward := flipped.2,
    hit_point := hit_point, normal := flipped.1, u := uv.1, v := uv.2 }

@[simp] theorem sphere_recAt_t (s : Sphere) (ray : Ray) (t : ℚ) : (s.recAt ray t).t = t := rfl

@[simp] theorem sphere_recAt_hit (s : Sphere) (ray : Ray) (t : ℚ) :
    (s.recAt ray t).hit = true := rfl

/-- Proof-side helper: the (window-independent) candidate hits a sphere
intersection can report, in the order the source tries them. -/
def Sphere.candsR (s : Sphere) (ray : Ray) : List RayIntersection :=
  let center_to_origin := ray.origin - s.position
  let a := dotQ ray.direction ray.direction
  let half_b := dotQ center_to_origin ray.direction
  let c := center_to_origin.length_squared - s.radius * s.radius
  let discriminant := half_b * half_b - a * c
  if discriminant < 0 then []
  else
    let sq := ratSqrt discriminant
    [s.recAt ray ((-half_b - sq) / a), s.recAt ray ((-half_b + sq) / a)]

/-- Proof-side helper: the record a quad reports at parameter `t`. -/
def Quad.recAt (q : Quad) (ray : Ray) (t : ℚ) : RayIntersection :=
  let hit_point := ray.origin + t * ray.direction
  let corner_to_hit_point := hit_point - q.corner
  let alpha := dotQ q.w (crossQ corner_to_hit_point q.edge1)
  let beta := dotQ q.w (crossQ q.edge0 corner_to_hit_point)
  { hit := true, t := t, is_normal_outward := false, hit_point := hit_point,
    normal := q.normal, u := alpha, v := beta }

@[simp] theorem quad_recAt_t (q : Quad) (ray : Ray) (t : ℚ) : (q.recAt ray t).t = t := rfl

@[simp] theorem quad_recAt_hit (q : Quad) (ray : Ray) (t : ℚ) : (q.recAt ray t).hit = true := rfl

/-- Proof-side helper: the (window-independent) candidate hit of a quad,
kept only when the in-quad test at that parameter succeeds. -/
def Quad.candsR (q : Quad) (ray : Ray) : List RayIntersection :=
  let denominator := dotQ q.normal ray.direction
  if |denominator| > 1 / 100000000 then
    let t := (q.d - dotQ q.normal ray.origin) / denominator
    let hit_point := ray.origin + t * ray.direction
    let corner_to_hit_point := hit_point - q.corner
    let alpha := dotQ q.w (crossQ corner_to_hit_point q.edge1)
    let beta := dotQ q.w (crossQ q.edge0 corner_to_hit_point)
    if 0 ≤ alpha ∧ alpha ≤ 1 ∧ 0 ≤ beta ∧ beta ≤ 1 then [q.recAt ray t] else []
  else []

/-- Candidate hits of a shape. -/
def Shape.candsR (sh : Shape) (ray : Ray) : List RayIntersection :=
  match sh with
  | .Sphere s => s.candsR ray
  | .Quad q => q.candsR ray

/-- Membership of a parameter in a window, in `Prop` form. -/
def inW (w : RangeQ) (t : ℚ) : Prop := w.start ≤ t ∧ t < w.stop

instance (w : RangeQ) (t : ℚ) : Decidable (inW w t) := by
  unfold inW
  infer_instance

theorem containsQ_iff_inW (w : RangeQ) (t : ℚ) : w.containsQ t = true ↔ inW w t := by
  simp [RangeQ.containsQ, inW]

/-- The smaller sphere root does not exceed the larger one (the leading
coefficient is a sum of squares, hence nonnegative; division by zero
yields zero on both sides). -/
theorem sphere_root_le (half_b sq a : ℚ) (hsq : 0 ≤ sq) (ha : 0 ≤ a) :
    (-half_b - sq) / a ≤ (-half_b + sq) / a := by
  rcases eq_or_lt_of_le ha with h0 | hpos
  · rw [← h0, div_zero, div_zero]
  · exact (div_le_div_right hpos).mpr (by linarith)

theorem dotQ_self_nonneg (v : Vec3Q) : 0 ≤ dotQ v v := by
  have hx : 0 ≤ v.x * v.x := mul_self_nonneg _
  have hy : 0 ≤ v.y * v.y := mul_self_nonneg _
  have hz : 0 ≤ v.z * v.z := mul_self_nonneg _
  unfold dotQ
  linarith

/-- Specification of `Sphere::ray_intersect` against its candidate list:
a miss means no candidate parameter lies in the window; a hit is the
candidate with the smallest in-window parameter. -/
theorem sphere_ray_intersect_spec (s : Sphere) (ray : Ray) (w : RangeQ) :
    ((s.ray_intersect ray w).hit = false → ∀ c ∈ s.candsR ray, ¬inW w c.t) ∧
    ((s.ray_intersect ray w).hit = true →
      s.ray_intersect ray w ∈ s.candsR ray ∧ inW w (s.ray_intersect ray w).t ∧
      ∀ c ∈ s.candsR ray, inW w c.t → (s.ray_intersect ray w).t ≤ c.t) := by
  unfold Sphere.ray_intersect Sphere.candsR
  dsimp only
  generalize dotQ (ray.origin - s.position) ray.direction = HB
  generalize hA : dotQ ray.direction ray.direction = A
  generalize (ray.origin - s.position).length_squared - s.radius * s.radius = C
  generalize hD : HB * HB - A * C = D
  generalize hSQ : ratSqrt D = SQ
  generalize hT1 : (-HB - SQ) / A = T1
  generalize hT2 : (-HB + SQ) / A = T2
  have hT1T2 : T1 ≤ T2 := by
    rw [← hT1, ← hT2, ← hSQ]
    exact sphere_root_le HB (ratSqrt D) A (ratSqrt_nonneg D)
      (hA ▸ dotQ_self_nonneg ray.direction)
  by_cases hdisc : D < 0
  · rw [if_pos hdisc, if_pos hdisc]
    constructor
    · intro _ c hc
      simp at hc
    · intro habs
      simp at habs
  · rw [if_neg hdisc, if_neg hdisc]
    by_cases h1 : RangeQ.containsQ w T1 = true
    · rw [if_pos h1]
      refine ⟨fun habs => by simp at habs, fun _ => ?_⟩
      refine ⟨List.mem_cons_self _ _, (containsQ_iff_inW _ _).mp h1, ?_⟩
      intro c hc _
      rcases List.mem_cons.mp hc with h | h
      · rw [h]
        simp
      · rcases List.mem_cons.mp h with h' | h'
        · rw [h']
          simpa using hT1T2
        · simp at h'
    · rw [if_neg h1]
      by_cases h2 : RangeQ.containsQ w T2 = true
      · rw [h2]
        refine ⟨fun habs => by simp at habs, fun _ => ?_⟩
        refine ⟨List.mem_cons_of_mem _ (List.mem_cons_self _ _),
          (containsQ_iff_inW _ _).mp h2, ?_⟩
        intro c hc hcw
        rcases List.mem_cons.mp hc with h | h
        · exfalso
          rw [h] at hcw
          simp only [sphere_recAt_t] at hcw
          exact h1 ((containsQ_iff_inW _ _).mpr hcw)
        · rcases List.mem_cons.mp h with h' | h'
          · rw [h']
            simp
          · simp at h'
      · refine ⟨fun _ c hc hcw => ?_, fun habs => absurd (by simpa using habs) h2⟩
        rcases List.mem_cons.mp hc with h | h
        · rw [h] at hcw
          simp only [sphere_recAt_t] at hcw
          exact h1 ((containsQ_iff_inW _ _).mpr hcw)
        · rcases List.mem_cons.mp h with h' | h'
          · rw [h'] at hcw
            simp only [sphere_recAt_t] at hcw
            exact h2 ((containsQ_iff_inW _ _).mpr hcw)
          · simp at h'

/-- Specification of `Quad::ray_intersect` against its candidate list. -/
theorem quad_ray_intersect_spec (q : Quad) (ray : Ray) (w : RangeQ) :
    ((q.ray_intersect ray w).hit = false → ∀ c ∈ q.candsR ray, ¬inW w c.t) ∧
    ((q.ray_intersect ray w).hit = true →
      q.ray_intersect ray w ∈ q.candsR ray ∧ inW w (q.ray_intersect ray w).t ∧
      ∀ c ∈ q.candsR ray, inW w c.t → (q.ray_intersect ray w).t ≤ c.t) := by
  unfold Quad.ray_intersect Quad.candsR
  dsimp only
  by_cases hden : |dotQ q.normal ray.direction| > 1 / 100000000
  · rw [if_pos hden, if_pos hden]
    generalize hT : (q.d - dotQ q.normal ray.origin) / dotQ q.normal ray.direction = T
    by_cases hcont : RangeQ.containsQ w T = true
    · rw [if_pos hcont]
      by_cases hin : 0 ≤ dotQ q.w (crossQ (ray.origin + T * ray.direction - q.corner) q.edge1) ∧
          dotQ q.w (crossQ (ray.origin + T * ray.direction - q.corner) q.edge1) ≤ 1 ∧
          0 ≤ dotQ q.w (crossQ q.edge0 (ray.origin + T * ray.direction - q.corner)) ∧
          dotQ q.w (crossQ q.edge0 (ray.origin + T * ray.direction - q.corner)) ≤ 1
      · rw [if_pos hin, if_pos hin]
        refine ⟨fun habs => by simp at habs, fun _ => ?_⟩
        refine ⟨List.mem_cons_self _ _, (containsQ_iff_inW _ _).mp hcont, ?_⟩
        intro c hc _
        rcases List.mem_cons.mp hc with h | h
        · rw [h]
          simp
        · simp at h
      · rw [if_neg hin, if_neg hin]
        refine ⟨fun _ c hc => ?_, fun habs => by simp [RayIntersection.mkDefault] at habs⟩
        simp at hc
    · rw [if_neg hcont]
      constructor
      · intro _ c hc hcw
        by_cases hin : 0 ≤ dotQ q.w (crossQ (ray.origin + T * ray.direction - q.corner) q.edge1) ∧
            dotQ q.w (crossQ (ray.origin + T * ray.direction - q.corner) q.edge1) ≤ 1 ∧
            0 ≤ dotQ q.w (crossQ q.edge0 (ray.origin + T * ray.direction - q.corner)) ∧
            dotQ q.w (crossQ q.edge0 (ray.origin + T * ray.direction - q.corner)) ≤ 1
        · rw [if_pos hin] at hc
          rcases List.mem_cons.mp hc with h | h
          · rw [h] at hcw
            simp only [quad_recAt_t] at hcw
            exact hcont ((containsQ_iff_inW _ _).mpr hcw)
          · simp at h
        · rw [if_neg hin] at hc
          simp at hc
      · intro habs
        simp [RayIntersection.mkDefault] at habs
  · rw [if_neg hden, if_neg hden]
    refine ⟨fun _ c hc => ?_, fun habs => by simp [RayIntersection.mkDefault] at habs⟩
    simp at hc

/-- Specification of `Shape::ray_intersect` against its candidate list. -/
theorem Shape.ray_intersect_spec (sh : Shape) (ray : Ray) (w : RangeQ) :
    ((sh.ray_intersect ray w).hit = false → ∀ c ∈ sh.candsR ray, ¬inW w c.t) ∧
    ((sh.ray_intersect ray w).hit = true →
      sh.ray_intersect ray w ∈ sh.candsR ray ∧ inW w (sh.ray_intersect ray w).t ∧
      ∀ c ∈ sh.candsR ray, inW w c.t → (sh.ray_intersect ray w).t ≤ c.t) := by
  cases sh with
  | Sphere s => exact sphere_ray_intersect_spec s ray w
  | Quad q => exact quad_ray_intersect_spec q ray w

/-- Every candidate record carries a raised hit flag. -/
theorem candsR_hit (sh : Shape) (ray : Ray) : ∀ c ∈ sh.candsR ray, c.hit = true := by
  intro c hc
  cases sh with
  | Sphere s =>
    unfold Shape.candsR Sphere.candsR at hc
    dsimp only at hc
    split at hc
    · simp at hc
    · rcases List.mem_cons.mp hc with h | h
      · rw [h]; rfl
      · rcases List.mem_cons.mp h with h' | h'
        · rw [h']; rfl
        · simp at h'
  | Quad q =>
    unfold Shape.candsR Quad.candsR at hc
    dsimp only at hc
    split at hc
    · split at hc
      · rcases List.mem_cons.mp hc with h | h
        · rw [h]; rfl
        · simp at h
      · simp at hc
    · simp at hc

/-- Lexicographic comparison of candidates: smaller `t` first, smaller
index on ties (the tie-break realised by both the linear scan and the BVH
descent order). -/
def lexLe (a b : RayIntersection × ℕ) : Prop :=
  a.1.t < b.1.t ∨ (a.1.t = b.1.t ∧ a.2 ≤ b.2)

theorem lexLe_trans {a b c : RayIntersection × ℕ} (h1 : lexLe a b) (h2 : lexLe b c) :
    lexLe a c := by
  unfold lexLe at *
  rcases h1 with h1 | ⟨h1, h1'⟩ <;> rcases h2 with h2 | ⟨h2, h2'⟩
  · exact Or.inl (lt_trans h1 h2)
  · exact Or.inl (h2 ▸ h1)
  · exact Or.inl (h1 ▸ h2)
  · exact Or.inr ⟨h1.trans h2, h1'.trans h2'⟩

instance (a b : RayIntersection × ℕ) : Decidable (lexLe a b) := by
  unfold lexLe
  infer_instance

theorem lexLe_refl (a : RayIntersection × ℕ) : lexLe a a := Or.inr ⟨rfl, le_refl _⟩

theorem not_lexLe (a b : RayIntersection × ℕ) :
    ¬lexLe a b ↔ b.1.t < a.1.t ∨ (b.1.t = a.1.t ∧ b.2 < a.2) := by
  unfold lexLe
  constructor
  · intro h
    push_neg at h
    rcases lt_trichotomy a.1.t b.1.t with hlt | heq | hgt
    · exact absurd hlt (not_lt.mpr h.1)
    · have := h.2 heq
      exact Or.inr ⟨heq.symm, by omega⟩
    · exact Or.inl hgt
  · intro h
    rcases h with h | ⟨heq, hlt⟩
    · rintro (h' | ⟨h', _⟩) <;> linarith
    · rintro (h' | ⟨h', h''⟩)
      · linarith
      · omega

theorem lexLe_of_not {a b : RayIntersection × ℕ} (h : ¬lexLe a b) : lexLe b a := by
  rcases (not_lexLe a b).mp h with h' | ⟨h', h''⟩
  · exact Or.inl h'
  · exact Or.inr ⟨h', le_of_lt h''⟩

/-- Left-biased lexicographic minimum of two candidates. -/
def pickBetter (a b : RayIntersection × ℕ) : RayIntersection × ℕ :=
  if lexLe a b then a else b

theorem pickBetter_eq_left {a b : RayIntersection × ℕ} (h : lexLe a b) :
    pickBetter a b = a := if_pos h

theorem pickBetter_eq_right {a b : RayIntersection × ℕ} (h : ¬lexLe a b) :
    pickBetter a b = b := if_neg h

theorem pickBetter_lexLe_left (a b : RayIntersection × ℕ) : lexLe (pickBetter a b) a := by
  by_cases h : lexLe a b
  · rw [pickBetter_eq_left h]
    exact lexLe_refl a
  · rw [pickBetter_eq_right h]
    exact lexLe_of_not h

theorem pickBetter_lexLe_right (a b : RayIntersection × ℕ) : lexLe (pickBetter a b) b := by
  by_cases h : lexLe a b
  · rw [pickBetter_eq_left h]
    exact h
  · rw [pickBetter_eq_right h]
    exact lexLe_refl b

theorem pickBetter_cases (a b : RayIntersection × ℕ) :
    pickBetter a b = a ∨ pickBetter a b = b := by
  by_cases h : lexLe a b
  · exact Or.inl (pickBetter_eq_left h)
  · exact Or.inr (pickBetter_eq_right h)

theorem pickBetter_assoc (a b c : RayIntersection × ℕ) :
    pickBetter a (pickBetter b c) = pickBetter (pickBetter a b) c := by
  by_cases hab : lexLe a b <;> by_cases hbc : lexLe b c
  · rw [pickBetter_eq_left hbc, pickBetter_eq_left hab,
      pickBetter_eq_left (lexLe_trans hab hbc)]
  · rw [pickBetter_eq_right hbc, pickBetter_eq_left hab]
  · rw [pickBetter_eq_left hbc, pickBetter_eq_right hab, pickBetter_eq_left hbc]
  · have hac : ¬lexLe a c := by
      rcases (not_lexLe a b).mp hab with h1 | ⟨e1, i1⟩ <;>
        rcases (not_lexLe b c).mp hbc with h2 | ⟨e2, i2⟩ <;>
        refine (not_lexLe a c).mpr ?_
      · exact Or.inl (by linarith)
      · exact Or.inl (by linarith)
      · exact Or.inl (by linarith)
      · exact Or.inr ⟨by linarith, by omega⟩
    rw [pickBetter_eq_right hbc, pickBetter_eq_right hab, pickBetter_eq_right hac,
      pickBetter_eq_right hbc]


/-- One step of the best-candidate fold. -/
def bestStep (w : RangeQ) (c : RayIntersection × ℕ) :
    Option (RayIntersection × ℕ) → Option (RayIntersection × ℕ)
  | none => if inW w c.1.t then some c else none
  | some b => if inW w c.1.t then some (pickBetter c b) else some b

theorem bestStep_none (w : RangeQ) (c : RayIntersection × ℕ) :
    bestStep w c none = if inW w c.1.t then some c else none := rfl

theorem bestStep_some (w : RangeQ) (c b : RayIntersection × ℕ) :
    bestStep w c (some b) = if inW w c.1.t then some (pickBetter c b) else some b := rfl

/-- The best (smallest `t`, then smallest index) in-window candidate of a
list, if any. -/
def bestCand (w : RangeQ) : List (RayIntersection × ℕ) → Option (RayIntersection × ℕ)
  | [] => none
  | c :: rest => bestStep w c (bestCand w rest)

theorem bestCand_nil (w : RangeQ) : bestCand w [] = none := rfl

theorem bestCand_cons (w : RangeQ) (c : RayIntersection × ℕ) (rest : List (RayIntersection × ℕ)) :
    bestCand w (c :: rest) = bestStep w c (bestCand w rest) := rfl

/-- Combine two optional candidates by lexicographic preference. -/
def optPick :
    Option (RayIntersection × ℕ) → Option (RayIntersection × ℕ) → Option (RayIntersection × ℕ)
  | none, r => r
  | l, none => l
  | some a, some b => some (pickBetter a b)

@[simp] theorem optPick_none_left (r : Option (RayIntersection × ℕ)) : optPick none r = r := by
  cases r <;> rfl

@[simp] theorem optPick_none_right (l : Option (RayIntersection × ℕ)) : optPick l none = l := by
  cases l <;> rfl

@[simp] theorem optPick_some_some (a b : RayIntersection × ℕ) :
    optPick (some a) (some b) = some (pickBetter a b) := rfl

theorem bestStep_optPick (w : RangeQ) (c : RayIntersection × ℕ)
    (r1 r2 : Option (RayIntersection × ℕ)) :
    bestStep w c (optPick r1 r2) = optPick (bestStep w c r1) r2 := by
  rcases r1 with _ | a <;> rcases r2 with _ | b <;> by_cases hc : inW w c.1.t <;>
    simp [bestStep_none, bestStep_some, optPick, hc, pickBetter_assoc]

theorem bestCand_append (w : RangeQ) (l1 l2 : List (RayIntersection × ℕ)) :
    bestCand w (l1 ++ l2) = optPick (bestCand w l1) (bestCand w l2) := by
  induction l1 with
  | nil => simp [bestCand_nil]
  | cons c rest ih =>
    rw [List.cons_append, bestCand_cons, bestCand_cons, ih, bestStep_optPick]

theorem bestCand_mem (w : RangeQ) :
    ∀ (l : List (RayIntersection × ℕ)) (b : RayIntersection × ℕ),
      bestCand w l = some b → b ∈ l ∧ inW w b.1.t := by
  intro l
  induction l with
  | nil => intro b h; cases h
  | cons c rest ih =>
    intro b h
    rw [bestCand_cons] at h
    rcases hbr : bestCand w rest with _ | br
    · rw [hbr, bestStep_none] at h
      by_cases hc : inW w c.1.t
      · rw [if_pos hc] at h
        cases h
        exact ⟨List.mem_cons_self _ _, hc⟩
      · rw [if_neg hc] at h
        cases h
    · rw [hbr, bestStep_some] at h
      by_cases hc : inW w c.1.t
      · rw [if_pos hc] at h
        cases h
        rcases pickBetter_cases c br with hp | hp <;> rw [hp]
        · exact ⟨List.mem_cons_self _ _, hc⟩
        · exact ⟨List.mem_cons_of_mem _ (ih br hbr).1, (ih br hbr).2⟩
      · rw [if_neg hc] at h
        cases h
        exact ⟨List.mem_cons_of_mem _ (ih b hbr).1, (ih b hbr).2⟩

theorem bestCand_none_iff (w : RangeQ) :
    ∀ (l : List (RayIntersection × ℕ)),
      bestCand w l = none ↔ ∀ c ∈ l, ¬inW w c.1.t := by
  intro l
  induction l with
  | nil => simp [bestCand_nil]
  | cons c rest ih =>
    rw [bestCand_cons]
    rcases hbr : bestCand w rest with _ | br
    · rw [bestStep_none]
      by_cases hc : inW w c.1.t
      · rw [if_pos hc]
        constructor
        · intro h; cases h
        · intro h
          exact absurd hc (h c (List.mem_cons_self _ _))
      · rw [if_neg hc]
        simp only [List.mem_cons, true_iff]
        intro d hd
        rcases hd with h | h
        · rw [h]; exact hc
        · exact (ih.mp hbr) d h
    · rw [bestStep_some]
      by_cases hc : inW w c.1.t
      · rw [if_pos hc]
        constructor
        · intro h; cases h
        · intro h
          exact absurd hc (h c (List.mem_cons_self _ _))
      · rw [if_neg hc]
        constructor
        · intro h; cases h
        · intro h
          have hnone : bestCand w rest = none :=
            ih.mpr (fun d hd => h d (List.mem_cons_of_mem _ hd))
          rw [hbr] at hnone
          cases hnone

theorem bestCand_min (w : RangeQ) :
    ∀ (l : List (RayIntersection × ℕ)) (b : RayIntersection × ℕ),
      bestCand w l = some b → ∀ c ∈ l, inW w c.1.t → lexLe b c := by
  intro l
  induction l with
  | nil => intro b h; cases h
  | cons c rest ih =>
    intro b h d hd hdw
    rw [bestCand_cons] at h
    rcases hbr : bestCand w rest with _ | br
    · rw [hbr, bestStep_none] at h
      by_cases hc : inW w c.1.t
      · rw [if_pos hc] at h
        cases h
        rcases List.mem_cons.mp hd with he | he
        · rw [he]
          exact lexLe_refl _
        · exact absurd hdw (((bestCand_none_iff w rest).mp hbr) d he)
      · rw [if_neg hc] at h
        cases h
    · rw [hbr, bestStep_some] at h
      by_cases hc : inW w c.1.t
      · rw [if_pos hc] at h
        cases h
        rcases List.mem_cons.mp hd with he | he
        · rw [he]
          exact pickBetter_lexLe_left _ _
        · exact lexLe_trans (pickBetter_lexLe_right _ _) (ih br hbr d he hdw)
      · rw [if_neg hc] at h
        cases h
        rcases List.mem_cons.mp hd with he | he
        · rw [he] at hdw
          exact absurd hdw hc
        · exact ih b hbr d he hdw

/-- A candidate that is in the window, minimal, and unique among minimal
candidates is the one `bestCand` returns. -/
theorem bestCand_eq_of_min (w : RangeQ) (l : List (RayIntersection × ℕ))
    (e : RayIntersection × ℕ) (hmem : e ∈ l) (hin : inW w e.1.t)
    (huniq : ∀ c ∈ l, inW w c.1.t → lexLe c e → c = e) :
    bestCand w l = some e := by
  rcases hb : bestCand w l with _ | b
  · exact absurd hin (((bestCand_none_iff w l).mp hb) e hmem)
  · have hbm := bestCand_mem w l b hb
    have := bestCand_min w l b hb e hmem hin
    rw [huniq b hbm.1 hbm.2 this]

/-- Shrinking only the upper end of the window preserves a positive
`bestCand` verdict. -/
theorem bestCand_narrow_some (w w' : RangeQ) (hs : w'.start = w.start) (he : w'.stop ≤ w.stop) :
    ∀ (l : List (RayIntersection × ℕ)) (b : RayIntersection × ℕ),
      bestCand w' l = some b → bestCand w l = some b := by
  have hwiden : ∀ t : ℚ, inW w' t → inW w t := by
    rintro t ⟨h1, h2⟩
    exact ⟨hs ▸ h1, lt_of_lt_of_le h2 he⟩
  have hup : ∀ t : ℚ, inW w t → ¬inW w' t → w'.stop ≤ t := by
    rintro t ⟨h1, h2⟩ hnot
    by_contra hlt
    exact hnot ⟨hs ▸ h1, not_le.mp hlt⟩
  intro l
  induction l with
  | nil => intro b h; cases h
  | cons c rest ih =>
    intro b h
    rw [bestCand_cons] at h
    rw [bestCand_cons]
    rcases hbr' : bestCand w' rest with _ | br'
    · rw [hbr', bestStep_none] at h
      by_cases hc : inW w' c.1.t
      · rw [if_pos hc] at h
        cases h
        rcases hbr : bestCand w rest with _ | br
        · rw [bestStep_none, if_pos (hwiden _ hc)]
        · have hbm := bestCand_mem w rest br hbr
          have hge : w'.stop ≤ br.1.t :=
            hup _ hbm.2 (((bestCand_none_iff w' rest).mp hbr') br hbm.1)
          have hlt : c.1.t < br.1.t := lt_of_lt_of_le hc.2 hge
          rw [bestStep_some, if_pos (hwiden _ hc), pickBetter_eq_left (Or.inl hlt)]
      · rw [if_neg hc] at h
        cases h
    · rw [hbr', bestStep_some] at h
      by_cases hc : inW w' c.1.t
      · rw [if_pos hc] at h
        cases h
        rw [ih br' hbr', bestStep_some, if_pos (hwiden _ hc)]
      · rw [if_neg hc] at h
        cases h
        rw [ih b hbr', bestStep_some]
        by_cases hcw : inW w c.1.t
        · rw [if_pos hcw]
          have hge : w'.stop ≤ c.1.t := hup _ hcw hc
          have hbm' := bestCand_mem w' rest b hbr'
          have hlt : b.1.t < c.1.t := lt_of_lt_of_le hbm'.2.2 hge
          rw [pickBetter_eq_right ((not_lexLe _ _).mpr (Or.inl hlt))]
        · rw [if_neg hcw]

/-- If the narrowed window holds no candidate, any candidate of the full
window lies at or beyond the narrowed upper end. -/
theorem bestCand_narrow_none (w w' : RangeQ) (hs : w'.start = w.start)
    (l : List (RayIntersection × ℕ)) (hnone : bestCand w' l = none)
    (b : RayIntersection × ℕ) (hb : bestCand w l = some b) : w'.stop ≤ b.1.t := by
  have hbm := bestCand_mem w l b hb
  have hnot : ¬inW w' b.1.t := ((bestCand_none_iff w' l).mp hnone) b hbm.1
  rcases hbm.2 with ⟨h1, h2⟩
  by_contra hlt
  exact hnot ⟨hs ▸ h1, not_le.mp hlt⟩

/-- All candidates of a shape list, tagged with global shape indices
starting at `base`. -/
def candListR (ray : Ray) : List Shape → ℕ → List (RayIntersection × ℕ)
  | [], _ => []
  | sh :: rest, i => (sh.candsR ray).map (fun r => (r, i)) ++ candListR ray rest (i + 1)

theorem candListR_nil (ray : Ray) (i : ℕ) : candListR ray [] i = [] := rfl

theorem candListR_cons (ray : Ray) (sh : Shape) (rest : List Shape) (i : ℕ) :
    candListR ray (sh :: rest) i =
      (sh.candsR ray).map (fun r => (r, i)) ++ candListR ray rest (i + 1) := rfl

theorem candListR_bounds (ray : Ray) :
    ∀ (l : List Shape) (i : ℕ) (c : RayIntersection × ℕ),
      c ∈ candListR ray l i → i ≤ c.2 ∧ c.2 < i + l.length := by
  intro l
  induction l with
  | nil => intro i c hc; cases hc
  | cons sh rest ih =>
    intro i c hc
    rw [candListR_cons] at hc
    rcases List.mem_append.mp hc with h | h
    · obtain ⟨r, _, rfl⟩ := List.mem_map.mp h
      simp only [List.length_cons]
      omega
    · have := ih (i + 1) c h
      simp only [List.length_cons]
      omega

theorem candListR_append (ray : Ray) :
    ∀ (l1 l2 : List Shape) (i : ℕ),
      candListR ray (l1 ++ l2) i = candListR ray l1 i ++ candListR ray l2 (i + l1.length) := by
  intro l1
  induction l1 with
  | nil =>
    intro l2 i
    simp [candListR_nil]
  | cons sh rest ih =>
    intro l2 i
    rw [List.cons_append, candListR_cons, candListR_cons, ih, List.append_assoc,
      List.length_cons, show i + 1 + rest.length = i + (rest.length + 1) by omega]

/-- Membership in a conditional list implies membership in one arm. -/
theorem mem_ite_list {α : Type} {c : Prop} [Decidable c] {a b : List α} {x : α} :
    x ∈ (if c then a else b) → (x ∈ a ∨ x ∈ b) := by
  by_cases hc : c
  · rw [if_pos hc]
    exact Or.inl
  · rw [if_neg hc]
    exact Or.inr

/-- Within one shape's candidate list the parameter determines the
record. -/
theorem candsR_t_inj (sh : Shape) (ray : Ray) :
    ∀ c1 ∈ sh.candsR ray, ∀ c2 ∈ sh.candsR ray, c1.t = c2.t → c1 = c2 := by
  intro c1 h1 c2 h2 ht
  cases sh with
  | Sphere s =>
    unfold Shape.candsR Sphere.candsR at h1 h2
    dsimp only at h1 h2
    split at h1
    · cases h1
    · split at h2
      · cases h2
      · simp only [List.mem_cons, List.not_mem_nil, or_false] at h1 h2
        rcases h1 with e1 | e1 <;> rcases h2 with e2 | e2
        · rw [e1, e2]
        · rw [e1, e2] at ht ⊢
          simp only [sphere_recAt_t] at ht
          rw [ht]
        · rw [e1, e2] at ht ⊢
          simp only [sphere_recAt_t] at ht
          rw [ht]
        · rw [e1, e2]
  | Quad q =>
    unfold Shape.candsR Quad.candsR at h1 h2
    dsimp only at h1 h2
    rcases mem_ite_list h1 with h1' | h1'
    · rcases mem_ite_list h1' with h1'' | h1''
      · rcases mem_ite_list h2 with h2' | h2'
        · rcases mem_ite_list h2' with h2'' | h2''
          · simp only [List.mem_singleton] at h1'' h2''
            rw [h1'', h2'']
          · cases h2''
        · cases h2'
      · cases h1''
    · cases h1'

/-- The best in-window candidate of a single shape's tagged candidate list
is exactly that shape's intersection verdict. -/
theorem shape_bestCand (sh : Shape) (ray : Ray) (w : RangeQ) (i : ℕ) :
    bestCand w ((sh.candsR ray).map (fun r => (r, i))) =
      if (sh.ray_intersect ray w).hit = true then some (sh.ray_intersect ray w, i) else none := by
  by_cases hhit : (sh.ray_intersect ray w).hit = true
  · rw [if_pos hhit]
    obtain ⟨hmem, hin, hmin⟩ := (sh.ray_intersect_spec ray w).2 hhit
    apply bestCand_eq_of_min
    · exact List.mem_map.mpr ⟨_, hmem, rfl⟩
    · exact hin
    · intro c hc hcw hle
      obtain ⟨r, hr, rfl⟩ := List.mem_map.mp hc
      have hge : (sh.ray_intersect ray w).t ≤ r.t := hmin r hr hcw
      have hteq : r.t = (sh.ray_intersect ray w).t := by
        rcases hle with h | ⟨h, _⟩
        · exact absurd h (not_lt.mpr hge)
        · exact h
      rw [candsR_t_inj sh ray r hr _ hmem hteq]
  · rw [if_neg hhit]
    rw [bestCand_none_iff]
    intro c hc
    obtain ⟨r, hr, rfl⟩ := List.mem_map.mp hc
    exact ((sh.ray_intersect_spec ray w).1 (by simpa using hhit)) r hr

/-- The post-processing a linear-scan accumulator applies to an optional
best candidate. -/
def scanOut (acc : RayIntersection × Option ℕ) :
    Option (RayIntersection × ℕ) → RayIntersection × Option ℕ
  | none => acc
  | some b => if b.1.t < acc.1.t then (b.1, some b.2) else acc

theorem scanOut_none (acc : RayIntersection × Option ℕ) : scanOut acc none = acc := rfl

theorem scanOut_some (acc : RayIntersection × Option ℕ) (b : RayIntersection × ℕ) :
    scanOut acc (some b) = if b.1.t < acc.1.t then (b.1, some b.2) else acc := rfl

theorem linearScanAux_nil (ray : Ray) (w : RangeQ) (i : ℕ) (acc : RayIntersection × Option ℕ) :
    linearScanAux ray w [] i acc = acc := rfl

theorem linearScanAux_cons (ray : Ray) (w : RangeQ) (sh : Shape) (rest : List Shape) (i : ℕ)
    (acc : RayIntersection × Option ℕ) :
    linearScanAux ray w (sh :: rest) i acc =
      linearScanAux ray w rest (i + 1)
        (if (sh.ray_intersect ray w).hit = true ∧ (sh.ray_intersect ray w).t < acc.1.t then
          (sh.ray_intersect ray w, some i) else acc) := rfl

/-- Characterisation of the linear scan: it returns the best in-window
candidate folded into its accumulator. -/
theorem linearScanAux_char (ray : Ray) (w : RangeQ) :
    ∀ (l : List Shape) (i : ℕ) (acc : RayIntersection × Option ℕ),
      linearScanAux ray w l i acc = scanOut acc (bestCand w (candListR ray l i)) := by
  intro l
  induction l with
  | nil =>
    intro i acc
    rw [linearScanAux_nil, candListR_nil, bestCand_nil, scanOut_none]
  | cons sh rest ih =>
    intro i acc
    rw [linearScanAux_cons, ih, candListR_cons, bestCand_append, shape_bestCand]
    by_cases hhit : (sh.ray_intersect ray w).hit = true
    · rw [if_pos hhit]
      by_cases hlt : (sh.ray_intersect ray w).t < acc.1.t
      · rw [if_pos ⟨hhit, hlt⟩]
        rcases hbr : bestCand w (candListR ray rest (i + 1)) with _ | br
        · rw [optPick_none_right, scanOut_none, scanOut_some,
            if_pos (show ((sh.ray_intersect ray w, i) :
              RayIntersection × ℕ).1.t < acc.1.t from hlt)]
        · rw [optPick_some_some, scanOut_some, scanOut_some]
          have hidx : i + 1 ≤ br.2 :=
            (candListR_bounds ray rest (i + 1) br (bestCand_mem w _ br hbr).1).1
          by_cases hpk : lexLe (sh.ray_intersect ray w, i) br
          · have hrle : (sh.ray_intersect ray w).t ≤ br.1.t := by
              rcases hpk with h | ⟨h, _⟩
              · exact le_of_lt h
              · exact le_of_eq h
            rw [pickBetter_eq_left hpk,
              if_neg (show ¬br.1.t < ((sh.ray_intersect ray w : RayIntersection),
                some i).1.t from not_lt.mpr hrle),
              if_pos (show ((sh.ray_intersect ray w, i) :
                RayIntersection × ℕ).1.t < acc.1.t from hlt)]
          · have hblt : br.1.t < (sh.ray_intersect ray w).t := by
              rcases (not_lexLe _ _).mp hpk with h | ⟨_, h⟩
              · exact h
              · omega
            rw [pickBetter_eq_right hpk,
              if_pos (show br.1.t < ((sh.ray_intersect ray w : RayIntersection),
                some i).1.t from hblt),
              if_pos (lt_trans hblt hlt)]
      · rw [if_neg (show ¬((sh.ray_intersect ray w).hit = true ∧
          (sh.ray_intersect ray w).t < acc.1.t) from fun hand => hlt hand.2)]
        rcases hbr : bestCand w (candListR ray rest (i + 1)) with _ | br
        · rw [optPick_none_right, scanOut_none, scanOut_some,
            if_neg (show ¬((sh.ray_intersect ray w, i) :
              RayIntersection × ℕ).1.t < acc.1.t from hlt)]
        · rw [optPick_some_some, scanOut_some, scanOut_some]
          by_cases hpk : lexLe (sh.ray_intersect ray w, i) br
          · have hrle : (sh.ray_intersect ray w).t ≤ br.1.t := by
              rcases hpk with h | ⟨h, _⟩
              · exact le_of_lt h
              · exact le_of_eq h
            rw [pickBetter_eq_left hpk,
              if_neg (show ¬br.1.t < acc.1.t from
                fun hbl => hlt (lt_of_le_of_lt hrle hbl)),
              if_neg (show ¬((sh.ray_intersect ray w, i) :
                RayIntersection × ℕ).1.t < acc.1.t from hlt)]
          · rw [pickBetter_eq_right hpk]
    · rw [if_neg hhit, optPick_none_left,
        if_neg (show ¬((sh.ray_intersect ray w).hit = true ∧
          (sh.ray_intersect ray w).t < acc.1.t) from fun hand => hhit hand.1)]

/-- Element lookup commutes with `take` below the cut. -/
theorem getD_take {α : Type} (l : List α) :
    ∀ (m j : ℕ) (d : α), j < m → (l.take m).getD j d = l.getD j d := by
  induction l with
  | nil =>
    intro m j d _
    rw [List.take_nil]
  | cons x xs ih =>
    intro m j d h
    cases m with
    | zero => omega
    | succ m' =>
      cases j with
      | zero => rw [List.take_succ_cons, List.getD_cons_zero, List.getD_cons_zero]
      | succ j' =>
        rw [List.take_succ_cons, List.getD_cons_succ, List.getD_cons_succ]
        exact ih m' j' d (by omega)

/-- Element lookup commutes with `drop` by an index shift. -/
theorem getD_drop {α : Type} (l : List α) :
    ∀ (m j : ℕ) (d : α), (l.drop m).getD j d = l.getD (m + j) d := by
  induction l with
  | nil =>
    intro m j d
    rw [List.drop_nil, List.getD_nil, List.getD_nil]
  | cons x xs ih =>
    intro m j d
    cases m with
    | zero => rw [List.drop_zero, Nat.zero_add]
    | succ m' =>
      rw [List.drop_succ_cons, ih m' j d,
        show m' + 1 + j = m' + j + 1 by omega, List.getD_cons_succ]

/-- Every tagged candidate carries a raised hit flag. -/
theorem candListR_hit (ray : Ray) :
    ∀ (l : List Shape) (i : ℕ) (c : RayIntersection × ℕ),
      c ∈ candListR ray l i → c.1.hit = true := by
  intro l
  induction l with
  | nil => intro i c hc; cases hc
  | cons sh rest ih =>
    intro i c hc
    rw [candListR_cons] at hc
    rcases List.mem_append.mp hc with h | h
    · obtain ⟨r, hr, rfl⟩ := List.mem_map.mp h
      exact candsR_hit sh ray r hr
    · exact ih (i + 1) c h

/-- Every tagged candidate comes from the shape stored at its index. -/
theorem candListR_shapes (ray : Ray) :
    ∀ (l : List Shape) (i : ℕ) (c : RayIntersection × ℕ),
      c ∈ candListR ray l i → c.1 ∈ Shape.candsR (l.getD (c.2 - i) outOfRangeShape) ray := by
  intro l
  induction l with
  | nil => intro i c hc; cases hc
  | cons sh rest ih =>
    intro i c hc
    rw [candListR_cons] at hc
    rcases List.mem_append.mp hc with h | h
    · obtain ⟨r, hr, rfl⟩ := List.mem_map.mp h
      show r ∈ Shape.candsR ((sh :: rest).getD (i - i) outOfRangeShape) ray
      rw [Nat.sub_self, List.getD_cons_zero]
      exact hr
    · have hb := candListR_bounds ray rest (i + 1) c h
      have hrec := ih (i + 1) c h
      rw [show c.2 - i = c.2 - (i + 1) + 1 by omega, List.getD_cons_succ]
      exact hrec

/-- Indices of the shapes reachable from a BVH node. -/
def BvhNode.leafIndices : BvhNode → List ℕ
  | .Leaf _ j => [j]
  | .Link _ left right => left.leafIndices ++ right.leafIndices

theorem leafIndices_leaf (a : Aabb) (j : ℕ) : (BvhNode.Leaf a j).leafIndices = [j] := rfl

theorem leafIndices_link (a : Aabb) (l r : BvhNode) :
    (BvhNode.Link a l r).leafIndices = l.leafIndices ++ r.leafIndices := rfl

/-- No shape at the listed indices has a candidate inside the window. -/
def noCandIn (shapes : List Shape) (ray : Ray) (w : RangeQ) (idxs : List ℕ) : Bool :=
  idxs.all (fun j =>
    ((shapes.getD j outOfRangeShape).candsR ray).all (fun c => !decide (inW w c.t)))

theorem noCandIn_spec (shapes : List Shape) (ray : Ray) (w : RangeQ) (idxs : List ℕ)
    (h : noCandIn shapes ray w idxs = true) :
    ∀ j ∈ idxs, ∀ c ∈ (shapes.getD j outOfRangeShape).candsR ray, ¬inW w c.t := by
  intro j hj c hc
  unfold noCandIn at h
  rw [List.all_eq_true] at h
  have hin := h j hj
  rw [List.all_eq_true] at hin
  have := hin c hc
  simpa using this

/-- Soundness of a BVH for a query: wherever the box test prunes a
subtree, the shapes under that subtree hold no candidate inside the
window.  The slab test ignores the window, so pruning is a property of the
node alone; the exact linear-scan/BVH agreement of C5 holds under this
condition (and its failure at a corner-grazing hit is the C5
counterexample). -/
def bvhSoundB (shapes : List Shape) (ray : Ray) (w : RangeQ) : BvhNode → Bool
  | .Leaf a j =>
    if a.ray_intersect ray then true else noCandIn shapes ray w [j]
  | .Link a left right =>
    if a.ray_intersect ray then
      bvhSoundB shapes ray w left && bvhSoundB shapes ray w right
    else noCandIn shapes ray w (BvhNode.Link a left right).leafIndices

theorem bvhSoundB_leaf (shapes : List Shape) (ray : Ray) (w : RangeQ) (a : Aabb) (j : ℕ) :
    bvhSoundB shapes ray w (.Leaf a j) =
      if a.ray_intersect ray then true else noCandIn shapes ray w [j] := rfl

theorem bvhSoundB_link (shapes : List Shape) (ray : Ray) (w : RangeQ) (a : Aabb)
    (left right : BvhNode) :
    bvhSoundB shapes ray w (.Link a left right) =
      if a.ray_intersect ray then
        bvhSoundB shapes ray w left && bvhSoundB shapes ray w right
      else noCandIn shapes ray w (BvhNode.Link a left right).leafIndices := rfl

theorem build_bvh_fuel_one (f : ℕ) (sh : Shape) (base : ℕ) :
    build_bvh_fuel (f + 1) [sh] base = .Leaf sh.calc_aabb base := rfl

theorem build_bvh_fuel_cons (f : ℕ) (sh0 sh1 : Shape) (rest : List Shape) (base : ℕ) :
    build_bvh_fuel (f + 1) (sh0 :: sh1 :: rest) base =
      .Link
        (Aabb.merge
          (build_bvh_fuel f ((sh0 :: sh1 :: rest).take ((sh0 :: sh1 :: rest).length / 2))
            base).nodeAabb
          (build_bvh_fuel f ((sh0 :: sh1 :: rest).drop ((sh0 :: sh1 :: rest).length / 2))
            (base + (sh0 :: sh1 :: rest).length / 2)).nodeAabb)
        (build_bvh_fuel f ((sh0 :: sh1 :: rest).take ((sh0 :: sh1 :: rest).length / 2)) base)
        (build_bvh_fuel f ((sh0 :: sh1 :: rest).drop ((sh0 :: sh1 :: rest).length / 2))
          (base + (sh0 :: sh1 :: rest).length / 2)) := rfl

theorem bvh_ray_intersect_leaf (a : Aabb) (j : ℕ) (shapes : List Shape) (ray : Ray)
    (w : RangeQ) :
    bvh_ray_intersect (.Leaf a j) shapes ray w =
      if a.ray_intersect ray then
        ((shapes.getD j outOfRangeShape).ray_intersect ray w, j)
      else (RayIntersection.mkDefault, 0) := rfl

theorem bvh_ray_intersect_link (a : Aabb) (left right : BvhNode) (shapes : List Shape)
    (ray : Ray) (w : RangeQ) :
    bvh_ray_intersect (.Link a left right) shapes ray w =
      if a.ray_intersect ray then
        (if (bvh_ray_intersect right shapes ray
              ⟨w.start, if (bvh_ray_intersect left shapes ray w).1.hit
                then (bvh_ray_intersect left shapes ray w).1.t else w.stop⟩).1.hit then
          bvh_ray_intersect right shapes ray
            ⟨w.start, if (bvh_ray_intersect left shapes ray w).1.hit
              then (bvh_ray_intersect left shapes ray w).1.t else w.stop⟩
        else bvh_ray_intersect left shapes ray w)
      else (RayIntersection.mkDefault, 0) := rfl

/-- The leaves of a built subtree cover exactly the index range of its
slice. -/
theorem leafIndices_build :
    ∀ (fuel : ℕ) (l : List Shape) (base : ℕ), 1 ≤ l.length → l.length ≤ fuel →
      (build_bvh_fuel fuel l base).leafIndices = List.range' base l.length := by
  intro fuel
  induction fuel with
  | zero => intro l base h1 h2; omega
  | succ f ih =>
    intro l base h1 h2
    rcases l with _ | ⟨sh0, l'⟩
    · simp at h1
    rcases l' with _ | ⟨sh1, rest⟩
    · rfl
    have hn2 : 2 ≤ (sh0 :: sh1 :: rest).length := by simp
    rw [build_bvh_fuel_cons, leafIndices_link]
    have hltake : ((sh0 :: sh1 :: rest).take ((sh0 :: sh1 :: rest).length / 2)).length =
        (sh0 :: sh1 :: rest).length / 2 := by
      rw [List.length_take]; omega
    have hldrop : ((sh0 :: sh1 :: rest).drop ((sh0 :: sh1 :: rest).length / 2)).length =
        (sh0 :: sh1 :: rest).length - (sh0 :: sh1 :: rest).length / 2 := by
      rw [List.length_drop]
    rw [ih _ base (by omega) (by omega), ih _ _ (by omega) (by omega), hltake, hldrop]
    have happ := List.range'_append base ((sh0 :: sh1 :: rest).length / 2)
      ((sh0 :: sh1 :: rest).length - (sh0 :: sh1 :: rest).length / 2) 1
    rw [one_mul] at happ
    rw [happ, show (sh0 :: sh1 :: rest).length - (sh0 :: sh1 :: rest).length / 2 +
      (sh0 :: sh1 :: rest).length / 2 = (sh0 :: sh1 :: rest).length by omega]

/-- Main BVH characterisation: on a sound tree the traversal agrees with
the best in-window candidate of the covered slice.  `w0` is the window the
soundness condition speaks about; the traversal's own window `w` may be
any sub-window of it (the descent narrows windows). -/
theorem bvh_ray_intersect_char :
    ∀ (fuel : ℕ) (l : List Shape) (base : ℕ) (shapes : List Shape) (ray : Ray)
      (w0 w : RangeQ),
      1 ≤ l.length → l.length ≤ fuel →
      (∀ j, j < l.length →
        shapes.getD (base + j) outOfRangeShape = l.getD j outOfRangeShape) →
      w.start = w0.start → w.stop ≤ w0.stop →
      bvhSoundB shapes ray w0 (build_bvh_fuel fuel l base) = true →
      (bestCand w (candListR ray l base) = none →
        (bvh_ray_intersect (build_bvh_fuel fuel l base) shapes ray w).1.hit = false) ∧
      (∀ b, bestCand w (candListR ray l base) = some b →
        bvh_ray_intersect (build_bvh_fuel fuel l base) shapes ray w = (b.1, b.2)) := by
  intro fuel
  induction fuel with
  | zero => intro l base shapes ray w0 w h1 h2 _ _ _ _; omega
  | succ f ih =>
    intro l base shapes ray w0 w h1 h2 hcoh hws hwe hsound
    rcases l with _ | ⟨sh0, l'⟩
    · simp at h1
    rcases l' with _ | ⟨sh1, rest⟩
    · -- singleton slice: a leaf node over the one shape
      have hsh : shapes.getD base outOfRangeShape = sh0 := by
        have := hcoh 0 (by simp)
        simpa using this
      rw [build_bvh_fuel_one] at hsound ⊢
      have hclR : candListR ray [sh0] base =
          (Shape.candsR sh0 ray).map (fun r => (r, base)) := by
        rw [candListR_cons, candListR_nil, List.append_nil]
      rw [hclR, bvh_ray_intersect_leaf, shape_bestCand]
      by_cases hbox : Aabb.ray_intersect sh0.calc_aabb ray = true
      · rw [if_pos hbox, hsh]
        by_cases hhit : (Shape.ray_intersect sh0 ray w).hit = true
        · rw [if_pos hhit]
          constructor
          · intro hnone; cases hnone
          · intro b hb
            cases hb
            rfl
        · rw [if_neg hhit]
          constructor
          · intro _
            exact (Bool.not_eq_true _).mp hhit
          · intro b hb; cases hb
      · rw [if_neg hbox]
        rw [bvhSoundB_leaf, if_neg hbox] at hsound
        have hmiss := noCandIn_spec shapes ray w0 [base] hsound base (List.mem_singleton.mpr rfl)
        rw [hsh] at hmiss
        have hhit : ¬(Shape.ray_intersect sh0 ray w).hit = true := by
          intro hh
          obtain ⟨hmem, hin, _⟩ := (Shape.ray_intersect_spec sh0 ray w).2 hh
          exact hmiss _ hmem ⟨hws ▸ hin.1, lt_of_lt_of_le hin.2 hwe⟩
        rw [if_neg hhit]
        constructor
        · intro _; rfl
        · intro b hb; cases hb
    -- at least two shapes: a link node over the midpoint split
    have hn2 : 2 ≤ (sh0 :: sh1 :: rest).length := by simp
    rw [build_bvh_fuel_cons] at hsound ⊢
    set m := (sh0 :: sh1 :: rest).length / 2 with hm
    set nodeL := build_bvh_fuel f ((sh0 :: sh1 :: rest).take m) base with hnodeL
    set nodeR := build_bvh_fuel f ((sh0 :: sh1 :: rest).drop m) (base + m) with hnodeR
    have hltake : ((sh0 :: sh1 :: rest).take m).length = m := by
      rw [List.length_take]; omega
    have hldrop : ((sh0 :: sh1 :: rest).drop m).length = (sh0 :: sh1 :: rest).length - m := by
      rw [List.length_drop]
    have hcohL : ∀ j, j < ((sh0 :: sh1 :: rest).take m).length →
        shapes.getD (base + j) outOfRangeShape =
          ((sh0 :: sh1 :: rest).take m).getD j outOfRangeShape := by
      intro j hj
      rw [hltake] at hj
      rw [getD_take _ _ _ _ hj]
      exact hcoh j (by omega)
    have hcohR : ∀ j, j < ((sh0 :: sh1 :: rest).drop m).length →
        shapes.getD (base + m + j) outOfRangeShape =
          ((sh0 :: sh1 :: rest).drop m).getD j outOfRangeShape := by
      intro j hj
      rw [hldrop] at hj
      rw [getD_drop, show base + m + j = base + (m + j) by omega]
      exact hcoh (m + j) (by omega)
    have hclsplit := candListR_append ray ((sh0 :: sh1 :: rest).take m)
      ((sh0 :: sh1 :: rest).drop m) base
    rw [List.take_append_drop, hltake] at hclsplit
    by_cases hbox : Aabb.ray_intersect (Aabb.merge nodeL.nodeAabb nodeR.nodeAabb) ray = true
    · rw [bvhSoundB_link, if_pos hbox, Bool.and_eq_true] at hsound
      obtain ⟨hsL, hsR⟩ := hsound
      rw [bvh_ray_intersect_link, if_pos hbox, hclsplit, bestCand_append]
      have ihL := ih ((sh0 :: sh1 :: rest).take m) base shapes ray w0 w
        (by omega) (by omega) hcohL hws hwe hsL
      rw [← hnodeL] at ihL
      rcases hbl : bestCand w (candListR ray ((sh0 :: sh1 :: rest).take m) base) with _ | bl
      · -- left slice has no in-window candidate
        have hlpnone := ihL.1 hbl
        have hlpcond : ¬(bvh_ray_intersect nodeL shapes ray w).1.hit = true := by
          rw [hlpnone]; exact Bool.false_ne_true
        rw [if_neg hlpcond]
        have hweta : (⟨w.start, w.stop⟩ : RangeQ) = w := rfl
        rw [hweta]
        have ihR := ih ((sh0 :: sh1 :: rest).drop m) (base + m) shapes ray w0 w
          (by omega) (by omega) hcohR hws hwe hsR
        rw [← hnodeR] at ihR
        rcases hbr : bestCand w (candListR ray ((sh0 :: sh1 :: rest).drop m) (base + m))
          with _ | br
        · have hrpnone := ihR.1 hbr
          have hrpcond : ¬(bvh_ray_intersect nodeR shapes ray w).1.hit = true := by
            rw [hrpnone]; exact Bool.false_ne_true
          rw [if_neg hrpcond, optPick_none_left]
          constructor
          · intro _; exact hlpnone
          · intro b hb; cases hb
        · have hrp := ihR.2 br hbr
          rw [hrp]
          have hrhit : ((br.1, br.2) : RayIntersection × ℕ).1.hit = true :=
            candListR_hit ray _ (base + m) br (bestCand_mem w _ br hbr).1
          rw [if_pos hrhit, optPick_none_left]
          constructor
          · intro hnone; cases hnone
          · intro b hb
            cases hb
            rfl
      · -- left slice holds the best candidate seen so far
        have hlp := ihL.2 bl hbl
        have hblmem := bestCand_mem w _ bl hbl
        have hblhit : ((bl.1, bl.2) : RayIntersection × ℕ).1.hit = true :=
          candListR_hit ray _ base bl hblmem.1
        rw [hlp, if_pos hblhit]
        have ihR := ih ((sh0 :: sh1 :: rest).drop m) (base + m) shapes ray w0
          ⟨w.start, ((bl.1, bl.2) : RayIntersection × ℕ).1.t⟩
          (by omega) (by omega) hcohR hws
          (le_trans (le_of_lt hblmem.2.2) hwe) hsR
        rw [← hnodeR] at ihR
        rcases hbr : bestCand ⟨w.start, ((bl.1, bl.2) : RayIntersection × ℕ).1.t⟩
            (candListR ray ((sh0 :: sh1 :: rest).drop m) (base + m)) with _ | br
        · -- narrowed right query misses: the left candidate stands
          have hrpnone := ihR.1 hbr
          have hrpcond : ¬(bvh_ray_intersect nodeR shapes ray
              ⟨w.start, ((bl.1, bl.2) : RayIntersection × ℕ).1.t⟩).1.hit = true := by
            rw [hrpnone]; exact Bool.false_ne_true
          rw [if_neg hrpcond]
          rcases hbrw : bestCand w (candListR ray ((sh0 :: sh1 :: rest).drop m) (base + m))
            with _ | c
          · rw [optPick_none_right]
            constructor
            · intro hnone; cases hnone
            · intro b hb
              cases hb
              rfl
          · have hble : bl.1.t ≤ c.1.t :=
              bestCand_narrow_none w ⟨w.start, ((bl.1, bl.2) : RayIntersection × ℕ).1.t⟩
                rfl _ hbr c hbrw
            have hcidx : base + m ≤ c.2 :=
              (candListR_bounds ray _ (base + m) c (bestCand_mem w _ c hbrw).1).1
            have hblidx : bl.2 < base + ((sh0 :: sh1 :: rest).take m).length :=
              (candListR_bounds ray _ base bl hblmem.1).2
            rw [hltake] at hblidx
            have hlex : lexLe bl c := by
              rcases lt_or_eq_of_le hble with hlt | heq
              · exact Or.inl hlt
              · exact Or.inr ⟨heq, by omega⟩
            rw [optPick_some_some, pickBetter_eq_left hlex]
            constructor
            · intro hnone; cases hnone
            · intro b hb
              cases hb
              rfl
        · -- narrowed right query hits: strictly closer than the left hit
          have hrp := ihR.2 br hbr
          rw [hrp]
          have hbrmem := bestCand_mem ⟨w.start, ((bl.1, bl.2) : RayIntersection × ℕ).1.t⟩
            _ br hbr
          have hrhit : ((br.1, br.2) : RayIntersection × ℕ).1.hit = true :=
            candListR_hit ray _ (base + m) br hbrmem.1
          rw [if_pos hrhit]
          have hbrw : bestCand w (candListR ray ((sh0 :: sh1 :: rest).drop m) (base + m)) =
              some br :=
            bestCand_narrow_some w ⟨w.start, ((bl.1, bl.2) : RayIntersection × ℕ).1.t⟩
              rfl (le_of_lt hblmem.2.2) _ br hbr
          have hblt : br.1.t < bl.1.t := hbrmem.2.2
          rw [hbrw, optPick_some_some,
            pickBetter_eq_right ((not_lexLe _ _).mpr (Or.inl hblt))]
          constructor
          · intro hnone; cases hnone
          · intro b hb
            cases hb
            rfl
    · -- the whole subtree is pruned: soundness says the slice is empty of
      -- in-window candidates
      rw [bvhSoundB_link, if_neg hbox] at hsound
      have hleaf : (BvhNode.Link (Aabb.merge nodeL.nodeAabb nodeR.nodeAabb) nodeL
          nodeR).leafIndices = List.range' base (sh0 :: sh1 :: rest).length := by
        rw [leafIndices_link, hnodeL, hnodeR,
          leafIndices_build f _ base (by omega) (by omega),
          leafIndices_build f _ _ (by omega) (by omega), hltake, hldrop]
        have happ := List.range'_append base m ((sh0 :: sh1 :: rest).length - m) 1
        rw [one_mul] at happ
        rw [happ, show (sh0 :: sh1 :: rest).length - m + m =
          (sh0 :: sh1 :: rest).length by omega]
      rw [hleaf] at hsound
      have hmiss := noCandIn_spec shapes ray w0 _ hsound
      have hbestnone : bestCand w (candListR ray (sh0 :: sh1 :: rest) base) = none := by
        rw [bestCand_none_iff]
        intro c hc hin
        have hcs := candListR_shapes ray (sh0 :: sh1 :: rest) base c hc
        have hcb := candListR_bounds ray (sh0 :: sh1 :: rest) base c hc
        have hj : c.2 ∈ List.range' base (sh0 :: sh1 :: rest).length := by
          rw [List.mem_range'_1]; omega
        have hcsh : c.1 ∈ Shape.candsR (shapes.getD c.2 outOfRangeShape) ray := by
          rw [show c.2 = base + (c.2 - base) by omega, hcoh (c.2 - base) (by omega)]
          exact hcs
        exact hmiss c.2 hj c.1 hcsh ⟨hws ▸ hin.1, lt_of_lt_of_le hin.2 hwe⟩
      rw [bvh_ray_intersect_link, if_neg hbox]
      constructor
      · intro _; rfl
      · intro b hb
        rw [hbestnone] at hb
        cases hb

/-- The linear scan in terms of the best in-window candidate. -/
theorem linearScan_char (shapes : List Shape) (base : ℕ) (ray : Ray) (w : RangeQ) :
    linearScan shapes base ray w =
      scanOut ({ RayIntersection.mkDefault with t := w.stop }, none)
        (bestCand w (candListR ray shapes base)) := by
  unfold linearScan
  exact linearScanAux_char ray w shapes base _

/-- Box containment order: `outer` contains `inner` component-wise. -/
def Aabb.containsBox (outer inner : Aabb) : Prop :=
  outer.lo.x ≤ inner.lo.x ∧ outer.lo.y ≤ inner.lo.y ∧ outer.lo.z ≤ inner.lo.z ∧
  inner.hi.x ≤ outer.hi.x ∧ inner.hi.y ≤ outer.hi.y ∧ inner.hi.z ≤ outer.hi.z

instance (a b : Aabb) : Decidable (Aabb.containsBox a b) := by
  unfold Aabb.containsBox
  infer_instance

/-- C8: `Aabb::merge(A, B)` has the component-wise minimum of the min
corners and maximum of the max corners, contains both arguments, is the
smallest box doing so, and is idempotent. -/
theorem claim_C8_merge (A B : Aabb) :
    ((Aabb.merge A B).lo = ⟨min A.lo.x B.lo.x, min A.lo.y B.lo.y, min A.lo.z B.lo.z⟩ ∧
     (Aabb.merge A B).hi = ⟨max A.hi.x B.hi.x, max A.hi.y B.hi.y, max A.hi.z B.hi.z⟩) ∧
    (Aabb.merge A B).containsBox A ∧
    (Aabb.merge A B).containsBox B ∧
    (∀ C : Aabb, C.containsBox A → C.containsBox B → C.containsBox (Aabb.merge A B)) ∧
    Aabb.merge A A = A := by
  refine ⟨⟨rfl, rfl⟩, ?_, ?_, ?_, ?_⟩
  · exact ⟨min_le_left _ _, min_le_left _ _, min_le_left _ _,
      le_max_left _ _, le_max_left _ _, le_max_left _ _⟩
  · exact ⟨min_le_right _ _, min_le_right _ _, min_le_right _ _,
      le_max_right _ _, le_max_right _ _, le_max_right _ _⟩
  · rintro C ⟨a1, a2, a3, a4, a5, a6⟩ ⟨b1, b2, b3, b4, b5, b6⟩
    exact ⟨le_min a1 b1, le_min a2 b2, le_min a3 b3,
      max_le a4 b4, max_le a5 b5, max_le a6 b6⟩
  · show Aabb.mk ⟨_, _, _⟩ ⟨_, _, _⟩ = A
    simp only [min_self, max_self]

/-- Witness for C8 at concrete boxes. -/
theorem claim_C8_merge_witness :
    (Aabb.mk ⟨-1, -2, -3⟩ ⟨5, 6, 7⟩).containsBox
      (Aabb.merge ⟨⟨0, 0, 0⟩, ⟨1, 1, 1⟩⟩ ⟨⟨-1, -2, -3⟩, ⟨2, 3, 4⟩⟩) :=
  (claim_C8_merge ⟨⟨0, 0, 0⟩, ⟨1, 1, 1⟩⟩ ⟨⟨-1, -2, -3⟩, ⟨2, 3, 4⟩⟩).2.2.2.1
    ⟨⟨-1, -2, -3⟩, ⟨5, 6, 7⟩⟩ (by norm_num [Aabb.containsBox])
    (by norm_num [Aabb.containsBox])

/-- C9: `MaterialDiffuse::new_checker(even, odd, scale)` installs its two
colors swapped: even-parity positions (sum of scaled floored coordinates
even) sample the `odd` argument and odd-parity positions the `even`
argument, because the arguments are forwarded into `TextureChecker::new`'s
`odd_color` and `even_color` parameters respectively. -/
theorem claim_C9_checker_swapped (even odd : Color3Q) (scale : ℚ) (u v : ℚ) (pos : Vec3Q) :
    let m := MaterialDiffuse.new_checker even odd scale
    let xi := i32SatOfFloor (pos.x * (1 / scale))
    let yi := i32SatOfFloor (pos.y * (1 / scale))
    let zi := i32SatOfFloor (pos.z * (1 / scale))
    ((xi + yi + zi) % 2 = 0 → m.tex_color u v pos = odd) ∧
    ((xi + yi + zi) % 2 ≠ 0 → m.tex_color u v pos = even) := by
  intro m xi yi zi
  constructor
  · intro h
    show (if (xi + yi + zi) % 2 = 0 then odd else even) = odd
    exact if_pos h
  · intro h
    show (if (xi + yi + zi) % 2 = 0 then odd else even) = even
    exact if_neg h

/-- Witness for C9 at a concrete even-parity and a concrete odd-parity
position: colors `(1,2,3)` (even argument) and `(4,5,6)` (odd argument)
with scale 1. -/
theorem claim_C9_checker_swapped_witness :
    (MaterialDiffuse.new_checker ⟨1, 2, 3⟩ ⟨4, 5, 6⟩ 1).tex_color 0 0 ⟨0, 0, 0⟩ = ⟨4, 5, 6⟩ ∧
    (MaterialDiffuse.new_checker ⟨1, 2, 3⟩ ⟨4, 5, 6⟩ 1).tex_color 0 0 ⟨1, 0, 0⟩ = ⟨1, 2, 3⟩ :=
  ⟨(claim_C9_checker_swapped ⟨1, 2, 3⟩ ⟨4, 5, 6⟩ 1 0 0 ⟨0, 0, 0⟩).1 (by norm_num [i32SatOfFloor]),
   (claim_C9_checker_swapped ⟨1, 2, 3⟩ ⟨4, 5, 6⟩ 1 0 0 ⟨1, 0, 0⟩).2 (by norm_num [i32SatOfFloor])⟩

/-- C7: the metal fuzz parameter is clamped into `[-1, 1]` at
construction, and the metal arm of `Scene::scatter` absorbs (returns no
sample) exactly when the fuzz-perturbed reflected direction satisfies
`dot(scattered, normal) <= 0`; any returned sample has probability 1. -/
theorem claim_C7_metal_clamp_absorb :
    (∀ (albedo : Color3Q) (fuzz : ℚ),
      -1 ≤ (MaterialMetal.new albedo fuzz).fuzz ∧ (MaterialMetal.new albedo fuzz).fuzz ≤ 1) ∧
    (∀ (incident_ray : Ray) (intersection : RayIntersection) (mat : MaterialMetal) (rand : Rng),
      let scattered := (reflectQ incident_ray.direction intersection.normal).normalized +
        mat.fuzz * (randUnitFromRng metalLoopFuel rand).1
      ((Scene.scatter incident_ray intersection (Material.Metal mat) rand).1 = none ↔
        dotQ scattered intersection.normal ≤ 0) ∧
      (((Scene.scatter incident_ray intersection (Material.Metal mat) rand).1.map
        (fun r => r.probability)).getD 1 = 1)) := by
  constructor
  · intro albedo fuzz
    unfold MaterialMetal.new
    constructor
    · dsimp only
      split
      · exact le_refl _
      · split
        · norm_num
        · linarith [not_lt.mp (by assumption : ¬fuzz < -1)]
    · dsimp only
      split
      · norm_num
      · split
        · exact le_refl _
        · exact le_of_not_lt (by assumption)
  · intro incident_ray intersection mat rand scattered
    unfold Scene.scatter
    constructor
    · dsimp only
      split
      · constructor
        · intro h
          exact absurd h (by simp)
        · intro hle
          exact absurd (by assumption) (not_lt.mpr hle)
      · simp [le_of_not_lt (by assumption)]
    · dsimp only
      split
      · rfl
      · rfl

/-- Unit quad in the plane `z = 0` (C2 evidence input). -/
def c2Quad : Quad :=
  Quad.new ⟨0, 0, 0⟩ ⟨1, 0, 0⟩ ⟨0, 1, 0⟩
    (Material.Diffuse (MaterialDiffuse.new_solid_color ⟨1, 1, 1⟩))

/-- Ray hitting `c2Quad` from behind, travelling along the stored normal
(C2 evidence input). -/
def c2Ray : Ray := Ray.new ⟨1 / 4, 1 / 4, -1⟩ ⟨0, 0, 1⟩

/-- C2 evidence: the back-face hit on `c2Quad` is reported with the stored
plane normal, so `dot(normal, rayDirection) > 0`, contradicting the
documented invariant that the reported normal always opposes the ray
(`shapes.rs` doc of `RayIntersection::normal`). -/
theorem claim_C2_quad_backface_normal :
    (c2Quad.ray_intersect c2Ray ⟨1 / 1000, fpMax⟩).hit = true ∧
    dotQ (c2Quad.ray_intersect c2Ray ⟨1 / 1000, fpMax⟩).normal c2Ray.direction > 0 := by
  have heval : c2Quad.ray_intersect c2Ray ⟨1 / 1000, fpMax⟩ =
      { hit := true, t := 1, is_normal_outward := false, hit_point := ⟨1 / 4, 1 / 4, 0⟩,
        normal := ⟨0, 0, 1⟩, u := 1 / 4, v := 1 / 4 } := by
    norm_num [c2Quad, c2Ray, Quad.new, Quad.ray_intersect, Vec3Q.length_squared,
      dotQ, crossQ, ratSqrt_one, RangeQ.containsQ, fpMax]
  rw [heval]
  norm_num [c2Ray, dotQ]

/-- C6: `Sphere::ray_intersect` misses on a negative discriminant,
otherwise reports the smaller root when it lies in `[tMin, tMax)` (closed
below, open above), else the larger root when that lies in `[tMin, tMax)`,
else a miss.  The quadratic quantities are universally quantified with
defining equations so witnesses can discharge them numerically. -/
theorem claim_C6_sphere_roots (s : Sphere) (ray : Ray) (limits : RangeQ)
    (a half_b c discriminant t1 t2 : ℚ)
    (ha : a = dotQ ray.direction ray.direction)
    (hb : half_b = dotQ (ray.origin - s.position) ray.direction)
    (hc : c = (ray.origin - s.position).length_squared - s.radius * s.radius)
    (hd : discriminant = half_b * half_b - a * c)
    (ht1 : t1 = (-half_b - ratSqrt discriminant) / a)
    (ht2 : t2 = (-half_b + ratSqrt discriminant) / a) :
    (discriminant < 0 → (s.ray_intersect ray limits).hit = false) ∧
    (0 ≤ discriminant → limits.start ≤ t1 ∧ t1 < limits.stop →
      (s.ray_intersect ray limits).hit = true ∧ (s.ray_intersect ray limits).t = t1) ∧
    (0 ≤ discriminant → ¬(limits.start ≤ t1 ∧ t1 < limits.stop) →
      limits.start ≤ t2 ∧ t2 < limits.stop →
      (s.ray_intersect ray limits).hit = true ∧ (s.ray_intersect ray limits).t = t2) ∧
    (0 ≤ discriminant → ¬(limits.start ≤ t1 ∧ t1 < limits.stop) →
      ¬(limits.start ≤ t2 ∧ t2 < limits.stop) → (s.ray_intersect ray limits).hit = false) := by
  subst ht1 ht2 hd ha hb hc
  simp only [Sphere.ray_intersect]
  refine ⟨?_, ?_, ?_, ?_⟩
  · intro hneg
    rw [if_pos hneg]
  · intro hpos hin
    rw [if_neg (not_lt.mpr hpos), if_pos (show RangeQ.containsQ _ _ = true from decide_eq_true hin)]
    exact ⟨rfl, rfl⟩
  · intro hpos hout hin
    rw [if_neg (not_lt.mpr hpos),
      if_neg (show ¬RangeQ.containsQ _ _ = true by simp only [RangeQ.containsQ, decide_eq_true_eq]; exact hout)]
    exact ⟨decide_eq_true hin, rfl⟩
  · intro hpos hout1 hout2
    rw [if_neg (not_lt.mpr hpos),
      if_neg (show ¬RangeQ.containsQ _ _ = true by simp only [RangeQ.containsQ, decide_eq_true_eq]; exact hout1)]
    exact decide_eq_false hout2

/-- Witness for C6: the unit sphere at `(0,0,-2)` hit from the origin
along `-z` has discriminant 1 and smaller root `t = 1`, which is reported. -/
theorem claim_C6_sphere_roots_witness :
    ((Sphere.new ⟨0, 0, -2⟩ 1 (Material.Diffuse (MaterialDiffuse.new_solid_color ⟨1, 1, 1⟩))).ray_intersect
      (Ray.new ⟨0, 0, 0⟩ ⟨0, 0, -1⟩) ⟨1 / 1000, fpMax⟩).hit = true ∧
    ((Sphere.new ⟨0, 0, -2⟩ 1 (Material.Diffuse (MaterialDiffuse.new_solid_color ⟨1, 1, 1⟩))).ray_intersect
      (Ray.new ⟨0, 0, 0⟩ ⟨0, 0, -1⟩) ⟨1 / 1000, fpMax⟩).t = 1 :=
  (claim_C6_sphere_roots
    (Sphere.new ⟨0, 0, -2⟩ 1 (Material.Diffuse (MaterialDiffuse.new_solid_color ⟨1, 1, 1⟩)))
    (Ray.new ⟨0, 0, 0⟩ ⟨0, 0, -1⟩) ⟨1 / 1000, fpMax⟩ 1 (-2) 3 1 1 3
    (by norm_num [dotQ, Sphere.new])
    (by norm_num [dotQ, Sphere.new])
    (by norm_num [Vec3Q.length_squared, Sphere.new])
    (by norm_num)
    (by norm_num [ratSqrt_one])
    (by norm_num [ratSqrt_one])).2.1 (by norm_num)
    ⟨by norm_num, by norm_num [fpMax]⟩

/-- Discriminates the `DiffuseLight` material variant. -/
def Material.isDiffuseLight : Material → Bool
  | .DiffuseLight _ => true
  | _ => false

theorem Material.emit_of_not_light (m : Material) (h : m.isDiffuseLight = false) :
    m.emit = Vec3Q.zero := by
  cases m <;> simp_all [Material.emit, Material.isDiffuseLight]

/-- The material reported by the nearest-hit scan, when present, is the
material of one of the scene's shapes. -/
theorem foldl_nearestHitStep_mem (ray : Ray) :
    ∀ (l : List Shape) (acc : RayIntersection × Option Material),
      (l.foldl (Scene.nearestHitStep ray) acc).2 = acc.2 ∨
      ∃ sh ∈ l, (l.foldl (Scene.nearestHitStep ray) acc).2 = some sh.get_material := by
  intro l
  induction l with
  | nil => exact fun acc => Or.inl rfl
  | cons head tail ih =>
    intro acc
    rw [List.foldl_cons]
    rcases ih (Scene.nearestHitStep ray acc head) with h | ⟨sh, hmem, hval⟩
    · rw [h]
      unfold Scene.nearestHitStep
      dsimp only
      split
      · exact Or.inr ⟨head, List.mem_cons_self _ _, rfl⟩
      · exact Or.inl rfl
    · exact Or.inr ⟨sh, List.mem_cons_of_mem _ hmem, hval⟩

/-- C4: `Scene::trace` returns exactly the zero color whenever its depth
argument exceeds the constant `TRACE_MAX_DEPTH = 50`.  Totality of the
recursion is witnessed by the definition itself: `Scene.traceWith` is
accepted by well-founded recursion on `traceMaxDepth + 1 - depth`, which
decreases at every recursive call because each call passes `depth + 1` and
only runs when `depth <= 50`. -/
theorem claim_C4_depth_cutoff (s : Scene) (ray : Ray) (rand : Rng) (depth : ℕ)
    (h : depth > 50) : s.trace ray rand depth = Vec3Q.zero := by
  unfold Scene.trace Scene.traceWith
  rw [dif_pos (show depth > traceMaxDepth from h)]

/-- Witness for C4 at depth 51 on the one-sphere scene. -/
theorem claim_C4_depth_cutoff_witness :
    Scene.one_sphere.trace (Ray.new ⟨0, 0, 0⟩ ⟨0, 0, -1⟩) ⟨fun _ => 3 / 4, 0⟩ 51 = Vec3Q.zero :=
  claim_C4_depth_cutoff Scene.one_sphere (Ray.new ⟨0, 0, 0⟩ ⟨0, 0, -1⟩) ⟨fun _ => 3 / 4, 0⟩ 51
    (by norm_num)

/-- C3: a scene whose primitives all have non-emissive materials (no
`DiffuseLight`) and whose background flag is black returns exactly the
zero color for every ray, RNG state and starting depth. -/
theorem claim_C3_black_scene (s : Scene) (hbg : s.is_background_sky = false)
    (hne : ∀ sh ∈ s.shapes, sh.get_material.isDiffuseLight = false) :
    ∀ (depth : ℕ) (ray : Ray) (rand : Rng), s.trace ray rand depth = Vec3Q.zero := by
  have hemit : ∀ (ray : Ray),
      ((s.nearestHit ray).2.getD (Material.DiffuseLight (MaterialDiffuseLight.new Vec3Q.zero))).emit
        = Vec3Q.zero := by
    intro ray
    rcases foldl_nearestHitStep_mem ray s.shapes
        ({ RayIntersection.mkDefault with t := fpMax }, none) with h | ⟨sh, hmem, hval⟩
    · show ((s.nearestHit ray).2.getD _).emit = Vec3Q.zero
      unfold Scene.nearestHit
      rw [h]
      simp [Material.emit, MaterialDiffuseLight.new, MaterialDiffuseLight.emitAt]
    · show ((s.nearestHit ray).2.getD _).emit = Vec3Q.zero
      unfold Scene.nearestHit
      rw [hval]
      simp only [Option.getD_some]
      exact Material.emit_of_not_light _ (hne sh hmem)
  suffices h : ∀ (n depth : ℕ), traceMaxDepth + 1 - depth ≤ n →
      ∀ (ray : Ray) (rand : Rng), s.trace ray rand depth = Vec3Q.zero by
    intro depth ray rand
    exact h (traceMaxDepth + 1 - depth) depth le_rfl ray rand
  intro n
  induction n with
  | zero =>
    intro depth hle ray rand
    unfold Scene.trace Scene.traceWith
    rw [dif_pos (show depth > traceMaxDepth by omega)]
  | succ n ih =>
    intro depth hle ray rand
    unfold Scene.trace at ih ⊢
    unfold Scene.traceWith
    by_cases hcut : depth > traceMaxDepth
    · rw [dif_pos hcut]
    · rw [dif_neg hcut]
      have hrec : ∀ (ray' : Ray) (rand' : Rng),
          Scene.traceWith Scene.pdf_mixure_sample s ray' rand' (depth + 1) = Vec3Q.zero := by
        intro ray' rand'
        exact ih (depth + 1) (by omega) ray' rand'
      cases hhit : (s.nearestHit ray).1.hit
      · simp only [hhit, Bool.false_eq_true, if_false, hbg, Bool.true_eq_false]
      · simp only [hhit, if_true]
        rcases hsc : Scene.scatter ray (s.nearestHit ray).1
            ((s.nearestHit ray).2.getD (Material.DiffuseLight (MaterialDiffuseLight.new Vec3Q.zero)))
            rand with ⟨osc, rand'⟩
        cases osc with
        | none => exact hemit ray
        | some sc =>
          cases hskip : sc.skip_pdf
          · simp only [hskip, Bool.false_eq_true, if_false]
            rw [hrec, hemit ray]
            simp [Vec3Q.zero]
          · simp only [hskip, if_true]
            rw [hrec]
            simp [Vec3Q.zero]

/-- Witness for C3: a concrete black-background scene holding one diffuse
and one metal sphere returns zero along a concrete ray. -/
theorem claim_C3_black_scene_witness :
    Scene.trace
      { materials := [Material.Diffuse (MaterialDiffuse.new_solid_color ⟨1 / 2, 1 / 2, 1 / 2⟩)],
        shapes := [Shape.Sphere (Sphere.new ⟨0, 0, -1⟩ (1 / 2)
            (Material.Diffuse (MaterialDiffuse.new_solid_color ⟨1 / 2, 1 / 2, 1 / 2⟩))),
          Shape.Sphere (Sphere.new ⟨0, 0, 2⟩ 1 (Material.Metal (MaterialMetal.new ⟨1, 1, 1⟩ 0)))],
        lights := [],
        is_background_sky := false }
      (Ray.new ⟨0, 0, 0⟩ ⟨0, 0, -1⟩) ⟨fun _ => 9 / 25, 0⟩ 0 = Vec3Q.zero :=
  claim_C3_black_scene _ rfl
    (by
      intro sh hmem
      simp only [List.mem_cons, List.mem_singleton] at hmem
      rcases hmem with h | h | h
      · subst h; rfl
      · subst h; rfl
      · cases h)
    0 (Ray.new ⟨0, 0, 0⟩ ⟨0, 0, -1⟩) ⟨fun _ => 9 / 25, 0⟩

/-- C10: every `ScatterResult` that `Scene::scatter` produces (for any
material variant) carries `skip_pdf = true`, and consequently `Scene::trace`
never reaches its light-mixture next-event-estimation branch: its value is
independent of the mixture sampler it is instantiated with, so
`pdf_mixure_sample` is dead code. -/
theorem claim_C10_skip_pdf_always (incident_ray : Ray) (intersection : RayIntersection)
    (material : Material) (rand : Rng) :
    (((Scene.scatter incident_ray intersection material rand).1.map
      (fun r => r.skip_pdf)).getD true = true) ∧
    (∀ (mixA mixB : Scene → Vec3Q → Rng → (Vec3Q × ℚ) × Rng) (s : Scene) (ray : Ray)
      (rand' : Rng) (depth : ℕ),
      Scene.traceWith mixA s ray rand' depth = Scene.traceWith mixB s ray rand' depth) := by
  have hskip : ∀ (ir : Ray) (isect : RayIntersection) (m : Material) (g : Rng),
      ((Scene.scatter ir isect m g).1.map (fun r => r.skip_pdf)).getD true = true := by
    intro ir isect m g
    cases m with
    | Diffuse mat => rfl
    | Metal mat =>
      unfold Scene.scatter
      dsimp only
      split <;> rfl
    | Dielectric mat => rfl
    | DiffuseLight mat => rfl
  refine ⟨hskip incident_ray intersection material rand, ?_⟩
  intro mixA mixB s ray rand' depth
  suffices h : ∀ (n depth : ℕ), traceMaxDepth + 1 - depth ≤ n →
      ∀ (ray : Ray) (g : Rng),
        Scene.traceWith mixA s ray g depth = Scene.traceWith mixB s ray g depth by
    exact h (traceMaxDepth + 1 - depth) depth le_rfl ray rand'
  intro n
  induction n with
  | zero =>
    intro depth hle ray g
    unfold Scene.traceWith
    rw [dif_pos (show depth > traceMaxDepth by omega), dif_pos (show depth > traceMaxDepth by omega)]
  | succ n ih =>
    intro depth hle ray g
    by_cases hcut : depth > traceMaxDepth
    · unfold Scene.traceWith
      rw [dif_pos hcut, dif_pos hcut]
    · conv =>
        lhs
        rw [Scene.traceWith]
      conv =>
        rhs
        rw [Scene.traceWith]
      rw [dif_neg hcut, dif_neg hcut]
      cases hhit : (s.nearestHit ray).1.hit
      · simp only [hhit, Bool.false_eq_true, if_false]
      · simp only [hhit, if_true]
        rcases hsc : Scene.scatter ray (s.nearestHit ray).1
            ((s.nearestHit ray).2.getD (Material.DiffuseLight (MaterialDiffuseLight.new Vec3Q.zero)))
            g with ⟨osc, g'⟩
        cases osc with
        | none => rfl
        | some sc =>
          have hsp : sc.skip_pdf = true := by
            have h := hskip ray (s.nearestHit ray).1
              ((s.nearestHit ray).2.getD (Material.DiffuseLight (MaterialDiffuseLight.new Vec3Q.zero))) g
            rw [hsc] at h
            simpa using h
          simp only [hsp, if_true]
          rw [ih (depth + 1) (by omega) _ _]

theorem Vec3Q.zero_add_vec (v : Vec3Q) : Vec3Q.zero + v = v := by
  show Vec3Q.mk (0 + v.x) (0 + v.y) (0 + v.z) = v
  simp

/-- C1: whenever `Scene::trace` at depth at most 50 finds a nearest hit
and the material's scatter sample is flagged skip-importance-sampling, the
returned radiance equals the material's emission color plus the sample's
albedo component-wise multiplied by the recursive trace of the scattered
ray at `depth + 1` (every material that scatters has zero emission, so the
source's skip branch, which omits the emission term, still satisfies the
equation). -/
theorem claim_C1_skip_branch (s : Scene) (ray : Ray) (rand : Rng) (depth : ℕ)
    (hdep : depth ≤ 50)
    (mat : Material) (hm : (s.nearestHit ray).2 = some mat)
    (hhit : (s.nearestHit ray).1.hit = true)
    (sc : ScatterResult) (rand' : Rng)
    (hsc : Scene.scatter ray (s.nearestHit ray).1 mat rand = (some sc, rand'))
    (hskip : sc.skip_pdf = true) :
    s.trace ray rand depth = mat.emit + sc.albedo * s.trace sc.ray rand' (depth + 1) := by
  have hemit : mat.emit = Vec3Q.zero := by
    cases mat with
    | DiffuseLight m => exact absurd hsc (by simp [Scene.scatter])
    | Diffuse m => rfl
    | Metal m => rfl
    | Dielectric m => rfl
  unfold Scene.trace
  conv_lhs => rw [Scene.traceWith]
  rw [dif_neg (show ¬depth > traceMaxDepth by unfold traceMaxDepth; omega)]
  simp only [hhit, if_true, hm, Option.getD_some]
  rw [hsc]
  simp only [hskip, if_true]
  rw [hemit, Vec3Q.zero_add_vec]

/-- Concrete inputs for the C1 witness: the one-sphere scene hit from the
origin, an RNG stream constantly `9/25` (chosen so every square root drawn
is exact), and the diffuse sample this produces. -/
def c1Ray : Ray := Ray.new ⟨0, 0, 0⟩ ⟨0, 0, -1⟩

/-- RNG state for the C1 witness. -/
def c1Rng : Rng := ⟨fun _ => 9 / 25, 0⟩

/-- RNG state after the two cosine-hemisphere draws of the C1 witness. -/
def c1RngOut : Rng := ⟨fun _ => 9 / 25, 2⟩

/-- Material of the one-sphere scene. -/
def c1Mat : Material := Material.Diffuse (MaterialDiffuse.new_solid_color ⟨7 / 10, 3 / 10, 3 / 10⟩)

/-- The scatter sample produced at the C1 witness inputs. -/
def c1Sc : ScatterResult :=
  { ray := { origin := ⟨0, 0, -(1 / 2)⟩, direction := ⟨-(3 / 5), 0, 4 / 5⟩,
             inv_dir := (.fin (-(5 / 3)), .posInf, .fin (5 / 4)),
             signs := (true, false, false) },
    albedo := ⟨7 / 10, 3 / 10, 3 / 10⟩,
    probability := 4 / 5 / piQ,
    skip_pdf := true }

/-- Witness for C1: at the concrete inputs above the radiance equation of
the skip branch holds. -/
theorem claim_C1_skip_branch_witness :
    Scene.one_sphere.trace c1Ray c1Rng 0 =
      c1Mat.emit + c1Sc.albedo * Scene.one_sphere.trace c1Sc.ray c1RngOut 1 :=
  claim_C1_skip_branch Scene.one_sphere c1Ray c1Rng 0 (by norm_num) c1Mat
    (by norm_num [Scene.nearestHit, Scene.nearestHitStep, List.foldl, Scene.one_sphere,
      Shape.ray_intersect, Sphere.ray_intersect, Sphere.new, Shape.get_material, dotQ,
      Vec3Q.length_squared, RayIntersection.mkDefault, RangeQ.containsQ, ratSqrt_quarter,
      fpMax, c1Ray, c1Mat])
    (by norm_num [Scene.nearestHit, Scene.nearestHitStep, List.foldl, Scene.one_sphere,
      Shape.ray_intersect, Sphere.ray_intersect, Sphere.new, Shape.get_material, dotQ,
      Vec3Q.length_squared, RayIntersection.mkDefault, RangeQ.containsQ, ratSqrt_quarter,
      fpMax, c1Ray])
    c1Sc c1RngOut
    (by norm_num [Scene.nearestHit, Scene.nearestHitStep, List.foldl, Scene.one_sphere,
      Shape.ray_intersect, Sphere.ray_intersect, Sphere.new, Shape.get_material, dotQ,
      Vec3Q.length_squared, RayIntersection.mkDefault, RangeQ.containsQ, ratSqrt_quarter,
      fpMax, c1Ray, c1Mat, c1Rng, c1RngOut, c1Sc, Scene.scatter,
      PdfCosineHemisphere.gen_sample, Rng.genRange, Rng.next, cosQ, sinQ,
      ratSqrt_nine_over_25, ratSqrt_sixteen_over_25, from_local_to_world_space,
      Vec3Q.normalized, Vec3Q.length, ratSqrt_one, crossQ, MaterialDiffuse.tex_color,
      MaterialDiffuse.new_solid_color, Texture.value, TextureSolidColor.new,
      TextureSolidColor.value, Ray.new, invOf, EFp.isNeg, Sphere.get_sphere_uv])
    rfl

/-- C5 (corrected): on a sound tree — `bvhSoundB`: wherever the slab test
prunes a subtree, no shape under it holds a candidate inside the query
window — the BVH closest-hit query agrees exactly with the linear scan:
same hit flag, and on a hit the same intersection record (hence the same
`t`) and the same winning shape index.  The soundness proviso is the
correction: the claim as stated is false, because the strict `tmin < tmax`
slab test can prune a box the ray only grazes while the quad test accepts
the grazing hit (`claim_C5_counterexample`). -/
theorem claim_C5_bvh_matches_scan (shapes : List Shape) (ray : Ray) (w : RangeQ)
    (hne : 1 ≤ shapes.length)
    (hsound : bvhSoundB shapes ray w (build_bvh shapes 0) = true) :
    (bvh_ray_intersect (build_bvh shapes 0) shapes ray w).1.hit =
      (linearScan shapes 0 ray w).1.hit ∧
    ((bvh_ray_intersect (build_bvh shapes 0) shapes ray w).1.hit = true →
      (bvh_ray_intersect (build_bvh shapes 0) shapes ray w).1 =
        (linearScan shapes 0 ray w).1 ∧
      (linearScan shapes 0 ray w).2 =
        some (bvh_ray_intersect (build_bvh shapes 0) shapes ray w).2) := by
  unfold build_bvh at hsound ⊢
  have hchar := bvh_ray_intersect_char shapes.length shapes 0 shapes ray w w hne
    (le_refl _) (fun j _ => by rw [Nat.zero_add]) rfl (le_refl _) hsound
  rw [linearScan_char]
  rcases hb : bestCand w (candListR ray shapes 0) with _ | b
  · have h1 := hchar.1 hb
    rw [scanOut_none, h1]
    constructor
    · rfl
    · intro hhit; cases hhit
  · have h2 := hchar.2 b hb
    have hbw := bestCand_mem w _ b hb
    rw [scanOut_some, h2,
      if_pos (show b.1.t < (({ RayIntersection.mkDefault with t := w.stop },
        (none : Option ℕ)) : RayIntersection × Option ℕ).1.t from hbw.2.2)]
    exact ⟨rfl, fun _ => ⟨rfl, rfl⟩⟩

/-- Unit sphere in front of the origin (C5 witness input). -/
def c5wSphere : Sphere :=
  Sphere.new ⟨0, 0, -2⟩ 1 (Material.Diffuse (MaterialDiffuse.new_solid_color ⟨1, 1, 1⟩))

/-- One-sphere shape list (C5 witness input). -/
def c5wShapes : List Shape := [Shape.Sphere c5wSphere]

/-- Axis ray towards the witness sphere. -/
def c5wRay : Ray := Ray.new ⟨0, 0, 0⟩ ⟨0, 0, -1⟩

/-- Query window of the C5 witness. -/
def c5wW : RangeQ := ⟨1 / 1000, 100⟩

/-- Witness for C5: the one-sphere tree is sound for the axis ray (its box
passes the slab test), so the theorem applies. -/
theorem claim_C5_bvh_matches_scan_witness :
    (bvh_ray_intersect (build_bvh c5wShapes 0) c5wShapes c5wRay c5wW).1.hit =
      (linearScan c5wShapes 0 c5wRay c5wW).1.hit ∧
    ((bvh_ray_intersect (build_bvh c5wShapes 0) c5wShapes c5wRay c5wW).1.hit = true →
      (bvh_ray_intersect (build_bvh c5wShapes 0) c5wShapes c5wRay c5wW).1 =
        (linearScan c5wShapes 0 c5wRay c5wW).1 ∧
      (linearScan c5wShapes 0 c5wRay c5wW).2 =
        some (bvh_ray_intersect (build_bvh c5wShapes 0) c5wShapes c5wRay c5wW).2) :=
  claim_C5_bvh_matches_scan c5wShapes c5wRay c5wW (by decide)
    (by norm_num [bvhSoundB, build_bvh, build_bvh_fuel, c5wShapes, c5wSphere, c5wRay,
      c5wW, Sphere.new, Ray.new, Shape.calc_aabb, Aabb.from_sphere, Aabb.ray_intersect,
      BvhNode.nodeAabb, invOf, EFp.isNeg, EFp.mulQ, EFp.fmax, EFp.fmin, EFp.ltE])

/-- Unit quad in the plane `z = 0` (C5 counterexample input). -/
def c5Quad : Quad :=
  Quad.new ⟨0, 0, 0⟩ ⟨1, 0, 0⟩ ⟨0, 1, 0⟩
    (Material.Diffuse (MaterialDiffuse.new_solid_color ⟨1, 1, 1⟩))

/-- One-quad shape list (C5 counterexample input). -/
def c5Shapes : List Shape := [Shape.Quad c5Quad]

/-- Ray grazing the quad's corner `(1, 0, 0)` at `t = 1` (C5
counterexample input): along it the padded box's slab test yields
`tmin = tmax = 1`, which the strict comparison rejects. -/
def c5Ray : Ray := Ray.new ⟨0, -1, 1⟩ ⟨1, 1, -1⟩

/-- Query window of the C5 counterexample. -/
def c5W : RangeQ := ⟨1 / 1000, 100⟩

/-- Counterexample to C5 as stated: the linear scan reports a hit at
`t = 1` on the quad, but the BVH query over the same single-shape list
misses, because the quad's corner-grazing ray fails the box's strict
`tmin < tmax` slab test. -/
theorem claim_C5_counterexample :
    (linearScan c5Shapes 0 c5Ray c5W).1.hit = true ∧
    (linearScan c5Shapes 0 c5Ray c5W).1.t = 1 ∧
    (bvh_ray_intersect (build_bvh c5Shapes 0) c5Shapes c5Ray c5W).1.hit = false := by
  refine ⟨?_, ?_, ?_⟩
  · norm_num [linearScan, linearScanAux, c5Shapes, c5Quad, c5Ray, c5W, Quad.new,
      Shape.ray_intersect, Quad.ray_intersect, Ray.new, Vec3Q.length_squared, dotQ,
      crossQ, ratSqrt_one, RangeQ.containsQ, RayIntersection.mkDefault]
  · norm_num [linearScan, linearScanAux, c5Shapes, c5Quad, c5Ray, c5W, Quad.new,
      Shape.ray_intersect, Quad.ray_intersect, Ray.new, Vec3Q.length_squared, dotQ,
      crossQ, ratSqrt_one, RangeQ.containsQ, RayIntersection.mkDefault]
  · norm_num [bvh_ray_intersect, build_bvh, build_bvh_fuel, c5Shapes, c5Quad, c5Ray,
      c5W, Quad.new, Quad.other_corner, Shape.calc_aabb, Aabb.from_quad,
      Aabb.ray_intersect, BvhNode.nodeAabb, Ray.new, Vec3Q.length_squared, dotQ, crossQ,
      ratSqrt_one, invOf, EFp.isNeg, EFp.mulQ, EFp.fmax, EFp.fmin, EFp.ltE,
      RayIntersection.mkDefault]

end RTW
